import Mathlib

/-!
# Varjo `Core/AABB.cpp`: axis-aligned bounding boxes

A shallow embedding of `src/Core/AABB.cpp` and the properties of its
specification.

## Scalars

The source computes on C++ `float`. Every function of the source is embedded once, over a
scalar type `α` that supplies what the function uses: `<` for the code that compares
(`createFromVertices`, `expand`), `+`, `-`, `*`, `/` and the literal `2.0f` for the code
that does arithmetic (`createFromCenterExtent`, `getExtent`, `getSurfaceArea`). Three scalar
types are used.

* `Flt R`, the floats: NaN, `-∞`, the finite values and `+∞`. A comparison with NaN is
  false. Arithmetic follows IEEE 754 on NaN and the infinities (`∞ - ∞` and `∞ * 0` are
  NaN), and rounds the exact result of an operation on finite values with `R`. The
  rounding `R` is any monotone function that keeps `0` and does not overflow inside the
  finite range, so a property proved for every `R` holds in every rounding mode. A finite
  value is the rational number it denotes, so the two zeros, which compare equal, are one
  value; every rational between `-FLT_MAX` and `FLT_MAX` is admitted, a superset of the
  finite floats.
* `F32`, the floats without NaN, which `<` orders linearly. The properties of the
  comparing code on boxes without NaN are proved over every linearly ordered scalar type
  and hold for `F32` in particular.
* `ℚ`, exact arithmetic without rounding or overflow, for the properties the
  specification states in exact arithmetic. `getCenter` is embedded over `ℚ` only.

## Mutation

`expand` mutates its receiver; the embedding returns the receiver's new value.
-/

namespace Varjo

/-! ## Scalars -/

/-- Modelled from the spec: the constant `FLT_MAX` of `<cfloat>`, "the largest finite
value representable by the chosen floating-point type"; for IEEE single precision
that is `(2^24 - 1) * 2^104`. -/
def FLT_MAX_Q : ℚ := (2 ^ 24 - 1) * 2 ^ 104

/-- The ordered values of a `float`: minus infinity, a finite value (read as the
rational number it denotes, between `-FLT_MAX` and `FLT_MAX`), plus infinity. -/
inductive F32 where
  | negInf : F32
  | finite (q : ℚ) (inRange : -FLT_MAX_Q ≤ q ∧ q ≤ FLT_MAX_Q) : F32
  | posInf : F32
deriving DecidableEq

namespace F32

/-- The comparison `a <= b` of two floats. -/
def le : F32 → F32 → Prop
  | negInf, _ => True
  | finite _ _, negInf => False
  | finite a _, finite b _ => a ≤ b
  | finite _ _, posInf => True
  | posInf, posInf => True
  | posInf, _ => False

/-- The comparison `a < b` of two floats. -/
def lt : F32 → F32 → Prop
  | negInf, negInf => False
  | negInf, _ => True
  | finite _ _, negInf => False
  | finite a _, finite b _ => a < b
  | finite _ _, posInf => True
  | posInf, _ => False

instance : LE F32 := ⟨le⟩
instance : LT F32 := ⟨lt⟩

instance decLe : (a b : F32) → Decidable (a ≤ b)
  | negInf, negInf => isTrue trivial
  | negInf, finite _ _ => isTrue trivial
  | negInf, posInf => isTrue trivial
  | finite _ _, negInf => isFalse id
  | finite a _, finite b _ => inferInstanceAs (Decidable (a ≤ b))
  | finite _ _, posInf => isTrue trivial
  | posInf, negInf => isFalse id
  | posInf, finite _ _ => isFalse id
  | posInf, posInf => isTrue trivial

instance decLt : (a b : F32) → Decidable (a < b)
  | negInf, negInf => isFalse id
  | negInf, finite _ _ => isTrue trivial
  | negInf, posInf => isTrue trivial
  | finite _ _, negInf => isFalse id
  | finite a _, finite b _ => inferInstanceAs (Decidable (a < b))
  | finite _ _, posInf => isTrue trivial
  | posInf, negInf => isFalse id
  | posInf, finite _ _ => isFalse id
  | posInf, posInf => isFalse id

/-- Unary minus of a float. -/
def neg : F32 → F32
  | negInf => posInf
  | finite q h => finite (-q) ⟨neg_le_neg h.2, by linarith [h.1]⟩
  | posInf => negInf

instance : Neg F32 := ⟨neg⟩

@[simp]
theorem f32_negInf_le (a : F32) : negInf ≤ a ↔ True := by
  cases a <;> exact Iff.rfl
@[simp]
theorem f32_le_posInf (a : F32) : a ≤ posInf ↔ True := by
  cases a <;> exact Iff.rfl
@[simp]
theorem f32_finite_le_finite (a b : ℚ) (ha hb) : finite a ha ≤ finite b hb ↔ a ≤ b := Iff.rfl
@[simp]
theorem f32_finite_le_negInf (a : ℚ) (ha) : finite a ha ≤ negInf ↔ False := Iff.rfl
@[simp]
theorem f32_posInf_le_negInf : posInf ≤ negInf ↔ False := Iff.rfl
@[simp]
theorem f32_posInf_le_finite (a : ℚ) (ha) : posInf ≤ finite a ha ↔ False := Iff.rfl
@[simp]
theorem f32_lt_negInf (a : F32) : a < negInf ↔ False := by
  cases a <;> exact Iff.rfl
@[simp]
theorem f32_posInf_lt (a : F32) : posInf < a ↔ False := by
  cases a <;> exact Iff.rfl
@[simp]
theorem f32_finite_lt_finite (a b : ℚ) (ha hb) : finite a ha < finite b hb ↔ a < b := Iff.rfl
@[simp]
theorem f32_negInf_lt_finite (a : ℚ) (ha) : negInf < finite a ha ↔ True := Iff.rfl
@[simp]
theorem f32_negInf_lt_posInf : negInf < posInf ↔ True := Iff.rfl
@[simp]
theorem f32_finite_lt_posInf (a : ℚ) (ha) : finite a ha < posInf ↔ True := Iff.rfl

@[simp]
theorem f32_neg_finite (a : ℚ) (ha) :
    -(finite a ha) = finite (-a) ⟨neg_le_neg ha.2, by linarith [ha.1]⟩ := rfl
@[simp]
theorem f32_neg_negInf : -negInf = posInf := rfl
@[simp]
theorem f32_neg_posInf : -posInf = negInf := rfl

instance : LinearOrder F32 where
  le := (· ≤ ·)
  lt := (· < ·)
  le_refl a := by
    cases a <;> simp
  le_trans a b c := by
    cases a <;> cases b <;> cases c <;> simp
    exact le_trans
  lt_iff_le_not_le a b := by
    cases a <;> cases b <;> simp
    exact le_of_lt
  le_antisymm a b := by
    cases a <;> cases b <;> simp
    exact le_antisymm
  le_total a b := by
    cases a <;> cases b <;> simp
    exact le_total _ _
  decidableLE := decLe
  decidableLT := decLt

end F32

/-- The scalar types of the embedding have the constant `FLT_MAX`. -/
class HasFltMax (α : Type) where
  /-- The constant `FLT_MAX` of `<cfloat>`. -/
  FLT_MAX : α

export HasFltMax (FLT_MAX)

instance : HasFltMax ℚ := ⟨FLT_MAX_Q⟩

instance : HasFltMax F32 :=
  ⟨F32.finite FLT_MAX_Q ⟨by norm_num [FLT_MAX_Q], le_refl _⟩⟩

/-! ## Floats with NaN, and their arithmetic -/

/-- The float `0`. -/
def F32.zero : F32 := F32.finite 0 (by norm_num [FLT_MAX_Q])

/-- The float `2`, the literal `2.0f` of the source. -/
def F32.two : F32 := F32.finite 2 (by norm_num [FLT_MAX_Q])

/-- The rounding of the exact result of an arithmetic operation on two finite floats to a
float. The embedding fixes no rounding mode: `rnd` is any function that is monotone, that
keeps `0`, and that does not overflow on a rational between `-FLT_MAX` and `FLT_MAX`, as
IEEE 754 rounding does in every rounding mode. -/
structure Rounding where
  /-- The float that a rational number is rounded to. -/
  rnd : ℚ → F32
  /-- Rounding is monotone. -/
  mono : ∀ a b : ℚ, a ≤ b → rnd a ≤ rnd b
  /-- Zero is rounded to zero. -/
  rnd_zero : rnd 0 = F32.zero
  /-- A rational in the range of the finite floats is rounded to a finite float. -/
  rnd_inRange : ∀ q : ℚ, -FLT_MAX_Q ≤ q → q ≤ FLT_MAX_Q →
    rnd q ≠ F32.negInf ∧ rnd q ≠ F32.posInf

/-- The rounding that keeps every rational between `-FLT_MAX` and `FLT_MAX` and overflows
to an infinity outside: a `Rounding` with which the float operations can be evaluated. On
a sum or product that is representable, or is at least `2 * FLT_MAX` in magnitude, it
agrees with IEEE 754 rounding to nearest. -/
def Rounding.saturating : Rounding where
  rnd q :=
    if h1 : q < -FLT_MAX_Q then F32.negInf
    else if h2 : FLT_MAX_Q < q then F32.posInf
    else F32.finite q ⟨not_lt.1 h1, not_lt.1 h2⟩
  mono a b hab := by
    by_cases a1 : a < -FLT_MAX_Q <;> by_cases a2 : FLT_MAX_Q < a <;>
      by_cases b1 : b < -FLT_MAX_Q <;> by_cases b2 : FLT_MAX_Q < b <;>
      simp [a1, a2, b1, b2, hab] <;> linarith
  rnd_zero := by
    have h1 : ¬ (0 : ℚ) < -FLT_MAX_Q := by norm_num [FLT_MAX_Q]
    have h2 : ¬ FLT_MAX_Q < (0 : ℚ) := by norm_num [FLT_MAX_Q]
    simp [h1, h2, F32.zero]
  rnd_inRange q h1 h2 := by
    simp [not_lt.2 h1, not_lt.2 h2]

/-- The values of a C++ `float`, NaN or one of the values that `<` orders, with the
rounding `R` that the arithmetic on them uses. -/
inductive Flt (R : Rounding) where
  | nan : Flt R
  | ord (v : F32) : Flt R
deriving DecidableEq

namespace Flt

variable {R : Rounding}

/-- The comparison `a < b` of two floats: false when either is NaN. -/
def lt : Flt R → Flt R → Prop
  | nan, nan => False
  | nan, ord _ => False
  | ord _, nan => False
  | ord a, ord b => a < b

/-- The comparison `a <= b` of two floats: false when either is NaN. -/
def le : Flt R → Flt R → Prop
  | nan, nan => False
  | nan, ord _ => False
  | ord _, nan => False
  | ord a, ord b => a ≤ b

instance : LT (Flt R) := ⟨lt⟩
instance : LE (Flt R) := ⟨le⟩

instance decLt : (a b : Flt R) → Decidable (a < b)
  | nan, nan => isFalse id
  | nan, ord _ => isFalse id
  | ord _, nan => isFalse id
  | ord a, ord b => inferInstanceAs (Decidable (a < b))

instance decLe : (a b : Flt R) → Decidable (a ≤ b)
  | nan, nan => isFalse id
  | nan, ord _ => isFalse id
  | ord _, nan => isFalse id
  | ord a, ord b => inferInstanceAs (Decidable (a ≤ b))

/-- Unary minus of a float. -/
def neg : Flt R → Flt R
  | nan => nan
  | ord v => ord (-v)

instance : Neg (Flt R) := ⟨neg⟩

instance : OfNat (Flt R) 0 := ⟨ord F32.zero⟩

instance : OfNat (Flt R) 2 := ⟨ord F32.two⟩

/-- The sum of two ordered floats: `∞ + -∞` is NaN, an infinity absorbs a finite float,
the sum of two finite floats is rounded. -/
def addOrd : F32 → F32 → Flt R
  | F32.negInf, F32.negInf => ord F32.negInf
  | F32.negInf, F32.finite _ _ => ord F32.negInf
  | F32.negInf, F32.posInf => nan
  | F32.finite _ _, F32.negInf => ord F32.negInf
  | F32.finite a _, F32.finite b _ => ord (R.rnd (a + b))
  | F32.finite _ _, F32.posInf => ord F32.posInf
  | F32.posInf, F32.negInf => nan
  | F32.posInf, F32.finite _ _ => ord F32.posInf
  | F32.posInf, F32.posInf => ord F32.posInf

/-- The product of two ordered floats: `∞ * 0` is NaN, an infinity times a non-zero float
is the infinity of the product's sign, the product of two finite floats is rounded. -/
def mulOrd : F32 → F32 → Flt R
  | F32.finite a _, F32.finite b _ => ord (R.rnd (a * b))
  | F32.finite a _, F32.posInf =>
    if a = 0 then nan else if 0 < a then ord F32.posInf else ord F32.negInf
  | F32.finite a _, F32.negInf =>
    if a = 0 then nan else if 0 < a then ord F32.negInf else ord F32.posInf
  | F32.posInf, F32.finite b _ =>
    if b = 0 then nan else if 0 < b then ord F32.posInf else ord F32.negInf
  | F32.negInf, F32.finite b _ =>
    if b = 0 then nan else if 0 < b then ord F32.negInf else ord F32.posInf
  | F32.posInf, F32.posInf => ord F32.posInf
  | F32.posInf, F32.negInf => ord F32.negInf
  | F32.negInf, F32.posInf => ord F32.negInf
  | F32.negInf, F32.negInf => ord F32.posInf

/-- The quotient of two ordered floats: `∞ / ∞` and `0 / 0` are NaN, a finite float over
an infinity is zero, the quotient of two finite floats is rounded. The two zeros are one
value here, and a zero divisor is read as `+0`. -/
def divOrd : F32 → F32 → Flt R
  | F32.finite a _, F32.finite b _ =>
    if b = 0 then
      if a = 0 then nan else if 0 < a then ord F32.posInf else ord F32.negInf
    else ord (R.rnd (a / b))
  | F32.finite _ _, F32.posInf => ord F32.zero
  | F32.finite _ _, F32.negInf => ord F32.zero
  | F32.posInf, F32.finite b _ => if 0 ≤ b then ord F32.posInf else ord F32.negInf
  | F32.negInf, F32.finite b _ => if 0 ≤ b then ord F32.negInf else ord F32.posInf
  | F32.posInf, F32.posInf => nan
  | F32.posInf, F32.negInf => nan
  | F32.negInf, F32.posInf => nan
  | F32.negInf, F32.negInf => nan

/-- Float addition `a + b`: NaN when an operand is NaN. -/
def add : Flt R → Flt R → Flt R
  | nan, nan => nan
  | nan, ord _ => nan
  | ord _, nan => nan
  | ord a, ord b => addOrd a b

/-- Float multiplication `a * b`: NaN when an operand is NaN. -/
def mul : Flt R → Flt R → Flt R
  | nan, nan => nan
  | nan, ord _ => nan
  | ord _, nan => nan
  | ord a, ord b => mulOrd a b

/-- Float division `a / b`: NaN when an operand is NaN. -/
def div : Flt R → Flt R → Flt R
  | nan, nan => nan
  | nan, ord _ => nan
  | ord _, nan => nan
  | ord a, ord b => divOrd a b

instance : Add (Flt R) := ⟨add⟩

/-- Float subtraction `a - b` is `a + (-b)`. -/
instance : Sub (Flt R) := ⟨fun a b => add a (neg b)⟩

instance : Mul (Flt R) := ⟨mul⟩

instance : Div (Flt R) := ⟨div⟩

end Flt

instance {R : Rounding} : HasFltMax (Flt R) := ⟨Flt.ord FLT_MAX⟩

/-! ## Data model -/

/-- The 3-component vector type of `Core/Vector3.h` (not under `src/`): three scalar
fields `x`, `y`, `z`. -/
@[ext]
structure Vector3 (α : Type) where
  x : α
  y : α
  z : α
deriving DecidableEq

/-- The class `AABB` of `Core/AABB.h`: the two corners `min` and `max`. -/
@[ext]
structure AABB (α : Type) where
  min : Vector3 α
  max : Vector3 α
deriving DecidableEq

/-- Modelled from the spec: `Vector3::operator+`, declared outside `src/`; the vector type
supplies "componentwise arithmetic". -/
instance {α : Type} [Add α] : Add (Vector3 α) :=
  ⟨fun a b => ⟨a.x + b.x, a.y + b.y, a.z + b.z⟩⟩

/-- Modelled from the spec: `Vector3::operator-`, declared outside `src/`; the vector type
supplies "componentwise arithmetic". -/
instance {α : Type} [Sub α] : Sub (Vector3 α) :=
  ⟨fun a b => ⟨a.x - b.x, a.y - b.y, a.z - b.z⟩⟩

/-- Modelled from the spec: `Vector3::operator*` by a scalar, declared outside `src/`;
every component is multiplied by the scalar. -/
instance {α : Type} [Mul α] : HMul (Vector3 α) α (Vector3 α) :=
  ⟨fun a s => ⟨a.x * s, a.y * s, a.z * s⟩⟩

/-- Modelled from the spec: `Vector3::operator/` by a scalar, declared outside `src/`;
every component is divided by the scalar. -/
instance {α : Type} [Div α] : HDiv (Vector3 α) α (Vector3 α) :=
  ⟨fun a s => ⟨a.x / s, a.y / s, a.z / s⟩⟩

section Order

variable {α : Type} [LT α] [∀ a b : α, Decidable (a < b)] [LE α] [∀ a b : α, Decidable (a ≤ b)]

/-- Modelled from the spec: the macro `MIN`, defined outside `src/`; the minimum of two
scalars, in the usual form `((a) < (b) ? (a) : (b))`. -/
def MIN (a b : α) : α := if a < b then a else b

/-- Modelled from the spec: the macro `MAX`, defined outside `src/`; the maximum of two
scalars, in the usual form `((a) > (b) ? (a) : (b))`. -/
def MAX (a b : α) : α := if a > b then a else b

/-- The default constructor `AABB::AABB()`: every component of `min` is `FLT_MAX`, every
component of `max` is `-FLT_MAX`. (Named `new`: `AABB.AABB` would hide the type `AABB`
inside its own namespace.) -/
def AABB.new [HasFltMax α] [Neg α] : AABB α :=
  { min := ⟨FLT_MAX, FLT_MAX, FLT_MAX⟩
    max := ⟨-FLT_MAX, -FLT_MAX, -FLT_MAX⟩ }

/-- `AABB::createFromMinMax`: the default-constructed local `aabb` has both of its fields
overwritten by the arguments. -/
def AABB.createFromMinMax (min_ max_ : Vector3 α) : AABB α :=
  { min := min_, max := max_ }

/-- `AABB::createFromVertices`. -/
def AABB.createFromVertices (v0 v1 v2 : Vector3 α) : AABB α :=
  let min_ : Vector3 α :=
    { x := MIN v0.x (MIN v1.x v2.x)
      y := MIN v0.y (MIN v1.y v2.y)
      z := MIN v0.z (MIN v1.z v2.z) }
  let max_ : Vector3 α :=
    { x := MAX v0.x (MAX v1.x v2.x)
      y := MAX v0.y (MAX v1.y v2.y)
      z := MAX v0.z (MAX v1.z v2.z) }
  AABB.createFromMinMax min_ max_

/-- `AABB::expand`: the six conditional assignments, in the order of the source; the
result is the receiver after the call. -/
def AABB.expand (self other : AABB α) : AABB α :=
  let s1 := if other.min.x < self.min.x then
    { self with min := { self.min with x := other.min.x } } else self
  let s2 := if other.min.y < s1.min.y then
    { s1 with min := { s1.min with y := other.min.y } } else s1
  let s3 := if other.min.z < s2.min.z then
    { s2 with min := { s2.min with z := other.min.z } } else s2
  let s4 := if other.max.x > s3.max.x then
    { s3 with max := { s3.max with x := other.max.x } } else s3
  let s5 := if other.max.y > s4.max.y then
    { s4 with max := { s4.max with y := other.max.y } } else s4
  if other.max.z > s5.max.z then
    { s5 with max := { s5.max with z := other.max.z } } else s5

/-- The "non-empty invariant" of the spec, its well-formed boxes: `min <= max` on every
axis. -/
def AABB.wellFormed (b : AABB α) : Prop :=
  b.min.x ≤ b.max.x ∧ b.min.y ≤ b.max.y ∧ b.min.z ≤ b.max.z

instance (b : AABB α) : Decidable b.wellFormed :=
  inferInstanceAs (Decidable (_ ∧ _ ∧ _))

/-- The componentwise comparison of two vectors: `a <= b` on every axis. -/
def Vector3.allLe (a b : Vector3 α) : Prop :=
  a.x ≤ b.x ∧ a.y ≤ b.y ∧ a.z ≤ b.z

instance (a b : Vector3 α) : Decidable (a.allLe b) :=
  inferInstanceAs (Decidable (_ ∧ _ ∧ _))

/-- The point `p` lies inside the box `b`: `b.min <= p <= b.max` on every axis. -/
def AABB.containsPoint (b : AABB α) (p : Vector3 α) : Prop :=
  b.min.allLe p ∧ p.allLe b.max

/-- Modelled from the spec: the accumulation loop of a caller of this class (no caller is
under `src/`), "starting from a default (empty) box and repeatedly expanding by each
primitive's box". -/
def AABB.expandAll [HasFltMax α] [Neg α] (boxes : List (AABB α)) : AABB α :=
  boxes.foldl AABB.expand AABB.new

/-- The box of three points as the merge builds it: the degenerate point box
`createFromMinMax(v0, v0)`, expanded with `createFromMinMax(v1, v1)` and then with
`createFromMinMax(v2, v2)`. -/
def AABB.mergeOfVertices (v0 v1 v2 : Vector3 α) : AABB α :=
  ((AABB.createFromMinMax v0 v0).expand (AABB.createFromMinMax v1 v1)).expand
    (AABB.createFromMinMax v2 v2)

end Order

/-- No component of `min` is `+∞` and no component of `max` is `-∞`. A box whose six
components are finite floats is such a box. -/
def AABB.noInfiniteBound (b : AABB F32) : Prop :=
  (b.min.x ≠ F32.posInf ∧ b.min.y ≠ F32.posInf ∧ b.min.z ≠ F32.posInf) ∧
  (b.max.x ≠ F32.negInf ∧ b.max.y ≠ F32.negInf ∧ b.max.z ≠ F32.negInf)

instance (b : AABB F32) : Decidable b.noInfiniteBound :=
  inferInstanceAs (Decidable ((_ ∧ _ ∧ _) ∧ (_ ∧ _ ∧ _)))

/-- `AABB::createFromCenterExtent`, in the arithmetic of the scalar type. -/
def AABB.createFromCenterExtent {α : Type} [Add α] [Sub α] [Div α] [OfNat α 2]
    (center extent : Vector3 α) : AABB α :=
  { min := center - extent / (2 : α)
    max := center + extent / (2 : α) }

/-- `AABB::getCenter`, in exact arithmetic. -/
def AABB.getCenter (self : AABB ℚ) : Vector3 ℚ :=
  (self.min + self.max) * (0.5 : ℚ)

/-- `AABB::getExtent`, in the arithmetic of the scalar type. -/
def AABB.getExtent {α : Type} [Sub α] (self : AABB α) : Vector3 α :=
  self.max - self.min

/-- `AABB::getSurfaceArea`, in the arithmetic of the scalar type. -/
def AABB.getSurfaceArea {α : Type} [Add α] [Sub α] [Mul α] [OfNat α 2] (self : AABB α) : α :=
  let extent := self.getExtent
  2 * (extent.x * extent.y + extent.z * extent.y + extent.x * extent.z)

/-- The vector with `f` applied to every component. -/
def Vector3.map {α β : Type} (f : α → β) (v : Vector3 α) : Vector3 β :=
  ⟨f v.x, f v.y, f v.z⟩

/-- The box with `f` applied to every component of both corners. -/
def AABB.map {α β : Type} (f : α → β) (b : AABB α) : AABB β :=
  ⟨b.min.map f, b.max.map f⟩

/-- No component of the vector is NaN. -/
def Vector3.noNaN {R : Rounding} (v : Vector3 (Flt R)) : Prop :=
  v.x ≠ Flt.nan ∧ v.y ≠ Flt.nan ∧ v.z ≠ Flt.nan

/-- No component of either corner of the box is NaN. -/
def AABB.noNaN {R : Rounding} (b : AABB (Flt R)) : Prop :=
  b.min.noNaN ∧ b.max.noNaN

/-- The float is `+∞` or `-∞`. -/
def Flt.isInfinite {R : Rounding} (x : Flt R) : Prop :=
  x = Flt.ord F32.posInf ∨ x = Flt.ord F32.negInf

/-! ## Concrete boxes -/

/-- The well-formed box both of whose corners are the point `(+∞, +∞, +∞)`. -/
def boxAtPosInf : AABB F32 :=
  AABB.createFromMinMax ⟨F32.posInf, F32.posInf, F32.posInf⟩ ⟨F32.posInf, F32.posInf, F32.posInf⟩

/-- The well-formed box both of whose corners are the point `(-∞, -∞, -∞)`. -/
def boxAtNegInf : AABB F32 :=
  AABB.createFromMinMax ⟨F32.negInf, F32.negInf, F32.negInf⟩ ⟨F32.negInf, F32.negInf, F32.negInf⟩

/-- The well-formed box `[1, 2] x [1, 2] x [1, 2]` of finite floats. -/
def boxOneTwo : AABB F32 :=
  AABB.createFromMinMax
    ⟨F32.finite 1 (by norm_num [FLT_MAX_Q]), F32.finite 1 (by norm_num [FLT_MAX_Q]),
      F32.finite 1 (by norm_num [FLT_MAX_Q])⟩
    ⟨F32.finite 2 (by norm_num [FLT_MAX_Q]), F32.finite 2 (by norm_num [FLT_MAX_Q]),
      F32.finite 2 (by norm_num [FLT_MAX_Q])⟩

/-- The box of floats whose six components are NaN. -/
def boxNaN : AABB (Flt Rounding.saturating) :=
  AABB.createFromMinMax ⟨Flt.nan, Flt.nan, Flt.nan⟩ ⟨Flt.nan, Flt.nan, Flt.nan⟩

/-- The point `(NaN, NaN, NaN)`. -/
def pointNaN : Vector3 (Flt Rounding.saturating) := ⟨Flt.nan, Flt.nan, Flt.nan⟩

/-- The point `(+∞, +∞, +∞)` of floats. -/
def pointPosInf : Vector3 (Flt Rounding.saturating) :=
  ⟨Flt.ord F32.posInf, Flt.ord F32.posInf, Flt.ord F32.posInf⟩

/-- The point `(0, 0, 0)` of floats. -/
def pointZero : Vector3 (Flt Rounding.saturating) :=
  ⟨Flt.ord F32.zero, Flt.ord F32.zero, Flt.ord F32.zero⟩

/-- The point `(2, 2, 2)` of floats. -/
def pointTwo : Vector3 (Flt Rounding.saturating) :=
  ⟨Flt.ord F32.two, Flt.ord F32.two, Flt.ord F32.two⟩

/-- The point `(0, 2, 0)` of floats. -/
def pointZeroTwoZero : Vector3 (Flt Rounding.saturating) :=
  ⟨Flt.ord F32.zero, Flt.ord F32.two, Flt.ord F32.zero⟩

/-- The box of floats with both corners at `(0, 0, 0)`. -/
def boxAtZero : AABB (Flt Rounding.saturating) := AABB.createFromMinMax pointZero pointZero

/-- The box of floats with both corners at `(2, 2, 2)`. -/
def boxAtTwo : AABB (Flt Rounding.saturating) := AABB.createFromMinMax pointTwo pointTwo

/-- The well-formed box of finite floats with `min = (-FLT_MAX, 0, 0)` and
`max = (FLT_MAX, 0, 0)`. -/
def boxWide : AABB (Flt Rounding.saturating) :=
  AABB.createFromMinMax ⟨Flt.ord (-FLT_MAX), Flt.ord F32.zero, Flt.ord F32.zero⟩
    ⟨Flt.ord FLT_MAX, Flt.ord F32.zero, Flt.ord F32.zero⟩

/-- The box `[0, 1] x [0, 1] x [0, 1]` over the rationals. -/
def unitBox : AABB ℚ := AABB.createFromMinMax ⟨0, 0, 0⟩ ⟨1, 1, 1⟩

/-- The box `[2, 3] x [2, 3] x [2, 3]` over the rationals. -/
def farBox : AABB ℚ := AABB.createFromMinMax ⟨2, 2, 2⟩ ⟨3, 3, 3⟩

/-! ## Auxiliary lemmas -/

namespace F32

/-- `FLT_MAX` is the largest float but `+∞`. -/
theorem f32_le_FLT_MAX_iff (a : F32) : a ≤ FLT_MAX ↔ a ≠ posInf := by
  cases a with
  | negInf => simp
  | finite q h => simpa [FLT_MAX, HasFltMax.FLT_MAX] using h.2
  | posInf => simp [FLT_MAX, HasFltMax.FLT_MAX]

/-- `-FLT_MAX` is the smallest float but `-∞`. -/
theorem f32_neg_FLT_MAX_le_iff (a : F32) : -FLT_MAX ≤ a ↔ a ≠ negInf := by
  cases a with
  | negInf => simp [FLT_MAX, HasFltMax.FLT_MAX]
  | finite q h => simpa [FLT_MAX, HasFltMax.FLT_MAX] using h.1
  | posInf => simp

end F32

@[simp]
theorem Vector3.add_x {α : Type} [Add α] (a b : Vector3 α) :
    (a + b).x = a.x + b.x := rfl
@[simp]
theorem Vector3.add_y {α : Type} [Add α] (a b : Vector3 α) :
    (a + b).y = a.y + b.y := rfl
@[simp]
theorem Vector3.add_z {α : Type} [Add α] (a b : Vector3 α) :
    (a + b).z = a.z + b.z := rfl
@[simp]
theorem Vector3.sub_x {α : Type} [Sub α] (a b : Vector3 α) :
    (a - b).x = a.x - b.x := rfl
@[simp]
theorem Vector3.sub_y {α : Type} [Sub α] (a b : Vector3 α) :
    (a - b).y = a.y - b.y := rfl
@[simp]
theorem Vector3.sub_z {α : Type} [Sub α] (a b : Vector3 α) :
    (a - b).z = a.z - b.z := rfl
@[simp]
theorem Vector3.mul_x {α : Type} [Mul α] (a : Vector3 α) (s : α) :
    (a * s).x = a.x * s := rfl
@[simp]
theorem Vector3.mul_y {α : Type} [Mul α] (a : Vector3 α) (s : α) :
    (a * s).y = a.y * s := rfl
@[simp]
theorem Vector3.mul_z {α : Type} [Mul α] (a : Vector3 α) (s : α) :
    (a * s).z = a.z * s := rfl
@[simp]
theorem Vector3.div_x {α : Type} [Div α] (a : Vector3 α) (s : α) :
    (a / s).x = a.x / s := rfl
@[simp]
theorem Vector3.div_y {α : Type} [Div α] (a : Vector3 α) (s : α) :
    (a / s).y = a.y / s := rfl
@[simp]
theorem Vector3.div_z {α : Type} [Div α] (a : Vector3 α) (s : α) :
    (a / s).z = a.z / s := rfl

namespace Flt

variable {R : Rounding}

@[simp]
theorem flt_ord_lt_ord (a b : F32) : (ord a : Flt R) < ord b ↔ a < b := Iff.rfl
@[simp]
theorem flt_ord_le_ord (a b : F32) : (ord a : Flt R) ≤ ord b ↔ a ≤ b := Iff.rfl
@[simp]
theorem flt_nan_lt (x : Flt R) : nan < x ↔ False := by
  cases x <;> exact Iff.rfl
@[simp]
theorem flt_lt_nan (x : Flt R) : x < nan ↔ False := by
  cases x <;> exact Iff.rfl
@[simp]
theorem flt_nan_le (x : Flt R) : nan ≤ x ↔ False := by
  cases x <;> exact Iff.rfl
@[simp]
theorem flt_le_nan (x : Flt R) : x ≤ nan ↔ False := by
  cases x <;> exact Iff.rfl
@[simp]
theorem flt_neg_ord (a : F32) : -(ord a : Flt R) = ord (-a) := rfl
@[simp]
theorem flt_neg_nan : -(nan : Flt R) = nan := rfl

theorem flt_zero_eq : (0 : Flt R) = ord F32.zero := rfl

theorem flt_two_eq : (2 : Flt R) = ord F32.two := rfl

@[simp]
theorem flt_ord_add_ord (a b : F32) : (ord a : Flt R) + ord b = addOrd a b := rfl
@[simp]
theorem flt_nan_add (x : Flt R) : nan + x = nan := by
  cases x <;> rfl
@[simp]
theorem flt_add_nan (x : Flt R) : x + nan = nan := by
  cases x <;> rfl
@[simp]
theorem flt_ord_sub_ord (a b : F32) : (ord a : Flt R) - ord b = addOrd a (-b) := rfl
@[simp]
theorem flt_nan_sub (x : Flt R) : nan - x = nan := by
  cases x <;> rfl
@[simp]
theorem flt_sub_nan (x : Flt R) : x - nan = nan := by
  cases x <;> rfl
@[simp]
theorem flt_ord_mul_ord (a b : F32) : (ord a : Flt R) * ord b = mulOrd a b := rfl
@[simp]
theorem flt_nan_mul (x : Flt R) : nan * x = nan := by
  cases x <;> rfl
@[simp]
theorem flt_mul_nan (x : Flt R) : x * nan = nan := by
  cases x <;> rfl
@[simp]
theorem flt_ord_div_ord (a b : F32) : (ord a : Flt R) / ord b = divOrd a b := rfl
@[simp]
theorem flt_nan_div (x : Flt R) : nan / x = nan := by
  cases x <;> rfl
@[simp]
theorem flt_div_nan (x : Flt R) : x / nan = nan := by
  cases x <;> rfl

/-- A float that is not NaN is an ordered value. -/
theorem exists_ord_of_ne_nan (x : Flt R) (h : x ≠ nan) : ∃ v : F32, x = ord v := by
  cases x with
  | nan => exact absurd rfl h
  | ord v => exact ⟨v, rfl⟩

end Flt

/-- A vector without NaN holds ordered values. -/
theorem Vector3.exists_ord_vector {R : Rounding} (v : Vector3 (Flt R)) (h : v.noNaN) :
    ∃ w : Vector3 F32, v = w.map Flt.ord := by
  obtain ⟨x, hx⟩ := Flt.exists_ord_of_ne_nan v.x h.1
  obtain ⟨y, hy⟩ := Flt.exists_ord_of_ne_nan v.y h.2.1
  obtain ⟨z, hz⟩ := Flt.exists_ord_of_ne_nan v.z h.2.2
  exact ⟨⟨x, y, z⟩, Vector3.ext hx hy hz⟩

section CompareLemmas

variable {α β : Type} [LT α] [∀ a b : α, Decidable (a < b)] [LT β]
  [∀ a b : β, Decidable (a < b)]

/-- The six conditional assignments of `expand` are independent of each other: every
component of the result is decided by its own comparison. -/
theorem expand_components (A B : AABB α) :
    A.expand B =
      { min := ⟨if B.min.x < A.min.x then B.min.x else A.min.x,
                if B.min.y < A.min.y then B.min.y else A.min.y,
                if B.min.z < A.min.z then B.min.z else A.min.z⟩
        max := ⟨if B.max.x > A.max.x then B.max.x else A.max.x,
                if B.max.y > A.max.y then B.max.y else A.max.y,
                if B.max.z > A.max.z then B.max.z else A.max.z⟩ } := by
  obtain ⟨⟨ax, ay, az⟩, ⟨bx, bY, bz⟩⟩ := A
  obtain ⟨⟨cx, cy, cz⟩, ⟨dx, dy, dz⟩⟩ := B
  by_cases h1 : cx < ax <;> by_cases h2 : cy < ay <;> by_cases h3 : cz < az <;>
    by_cases h4 : bx < dx <;> by_cases h5 : bY < dy <;> by_cases h6 : bz < dz <;>
    simp [AABB.expand, h1, h2, h3, h4, h5, h6]

/-- A map that keeps `<` commutes with `MIN`. -/
theorem MIN_map (f : α → β) (hf : ∀ a b, f a < f b ↔ a < b) (a b : α) :
    MIN (f a) (f b) = f (MIN a b) := by
  simp only [MIN, hf, apply_ite f]

/-- A map that keeps `<` commutes with `MAX`. -/
theorem MAX_map (f : α → β) (hf : ∀ a b, f a < f b ↔ a < b) (a b : α) :
    MAX (f a) (f b) = f (MAX a b) := by
  simp only [MAX, gt_iff_lt, hf, apply_ite f]

/-- A map that keeps `<` commutes with `createFromVertices`. -/
theorem createFromVertices_map (f : α → β) (hf : ∀ a b, f a < f b ↔ a < b)
    (v0 v1 v2 : Vector3 α) :
    AABB.createFromVertices (v0.map f) (v1.map f) (v2.map f) =
      (AABB.createFromVertices v0 v1 v2).map f := by
  simp only [AABB.createFromVertices, AABB.createFromMinMax, AABB.map, Vector3.map,
    MIN_map f hf, MAX_map f hf]

/-- A map that keeps `<` commutes with `expand`. -/
theorem expand_map (f : α → β) (hf : ∀ a b, f a < f b ↔ a < b) (A B : AABB α) :
    (A.map f).expand (B.map f) = (A.expand B).map f := by
  rw [expand_components, expand_components]
  simp only [AABB.map, Vector3.map, gt_iff_lt, hf, apply_ite f]

end CompareLemmas

section OrderLemmas

variable {α : Type} [LinearOrder α]

/-- The conditional assignment `if (b < a) a = b;` leaves the minimum of `a` and `b`. -/
theorem lower_eq_min (a b : α) : (if b < a then b else a) = min a b := by
  rcases lt_or_le b a with h | h
  · rw [if_pos h, min_eq_right h.le]
  · rw [if_neg (not_lt.2 h), min_eq_left h]

/-- The conditional assignment `if (b > a) a = b;` leaves the maximum of `a` and `b`. -/
theorem raise_eq_max (a b : α) : (if b > a then b else a) = max a b := by
  rcases lt_or_le a b with h | h
  · rw [if_pos h, max_eq_right h.le]
  · rw [if_neg (not_lt.2 h), max_eq_left h]

/-- The result of `expand` in closed form: componentwise minimum of the `min` corners and
componentwise maximum of the `max` corners. -/
theorem expand_eq (A B : AABB α) :
    A.expand B =
      { min := ⟨min A.min.x B.min.x, min A.min.y B.min.y, min A.min.z B.min.z⟩
        max := ⟨max A.max.x B.max.x, max A.max.y B.max.y, max A.max.z B.max.z⟩ } := by
  rw [expand_components]
  simp only [lower_eq_min, raise_eq_max]

theorem MIN_eq_min (a b : α) : MIN a b = min a b := by
  rcases lt_or_le a b with h | h
  · rw [MIN, if_pos h, min_eq_left h.le]
  · rw [MIN, if_neg (not_lt.2 h), min_eq_right h]

theorem MAX_eq_max (a b : α) : MAX a b = max a b := by
  rcases lt_or_le b a with h | h
  · rw [MAX, if_pos h, max_eq_left h.le]
  · rw [MAX, if_neg (not_lt.2 h), max_eq_right h]

/-- The result of `createFromVertices` in closed form. -/
theorem createFromVertices_eq (v0 v1 v2 : Vector3 α) :
    AABB.createFromVertices v0 v1 v2 =
      { min := ⟨min v0.x (min v1.x v2.x), min v0.y (min v1.y v2.y), min v0.z (min v1.z v2.z)⟩
        max := ⟨max v0.x (max v1.x v2.x), max v0.y (max v1.y v2.y),
                max v0.z (max v1.z v2.z)⟩ } := by
  simp only [AABB.createFromVertices, AABB.createFromMinMax, MIN_eq_min, MAX_eq_max]

/-- The minimum of three scalars is one of them. -/
theorem min3_mem (a b c : α) : min a (min b c) = a ∨ min a (min b c) = b ∨ min a (min b c) = c := by
  rcases min_choice a (min b c) with h | h
  · exact Or.inl h
  · rcases min_choice b c with h2 | h2
    · exact Or.inr (Or.inl (h.trans h2))
    · exact Or.inr (Or.inr (h.trans h2))

/-- The maximum of three scalars is one of them. -/
theorem max3_mem (a b c : α) : max a (max b c) = a ∨ max a (max b c) = b ∨ max a (max b c) = c := by
  rcases max_choice a (max b c) with h | h
  · exact Or.inl h
  · rcases max_choice b c with h2 | h2
    · exact Or.inr (Or.inl (h.trans h2))
    · exact Or.inr (Or.inr (h.trans h2))

/-- Folding `expand` over a list of boxes folds `min` over each component of the `min`
corners and `max` over each component of the `max` corners. -/
theorem foldl_expand_eq (l : List (AABB α)) (A : AABB α) :
    l.foldl AABB.expand A =
      { min := ⟨l.foldl (fun m b => min m b.min.x) A.min.x,
                l.foldl (fun m b => min m b.min.y) A.min.y,
                l.foldl (fun m b => min m b.min.z) A.min.z⟩
        max := ⟨l.foldl (fun m b => max m b.max.x) A.max.x,
                l.foldl (fun m b => max m b.max.y) A.max.y,
                l.foldl (fun m b => max m b.max.z) A.max.z⟩ } := by
  induction l generalizing A with
  | nil => rfl
  | cons b l ih => rw [List.foldl_cons, ih, expand_eq]; rfl

theorem foldl_min_le_init {β : Type} (f : β → α) (l : List β) (a : α) :
    l.foldl (fun m b => min m (f b)) a ≤ a := by
  induction l generalizing a with
  | nil => exact le_refl a
  | cons b l ih => exact (ih _).trans (min_le_left _ _)

theorem foldl_min_le_mem {β : Type} (f : β → α) (l : List β) (a : α) :
    ∀ b ∈ l, l.foldl (fun m b => min m (f b)) a ≤ f b := by
  induction l generalizing a with
  | nil => intro b hb; cases hb
  | cons c l ih =>
    intro b hb
    rcases List.mem_cons.1 hb with rfl | hb
    · exact (foldl_min_le_init f l _).trans (min_le_right _ _)
    · exact ih _ b hb

theorem foldl_min_mem {β : Type} (f : β → α) (l : List β) (a : α) :
    l.foldl (fun m b => min m (f b)) a = a ∨ l.foldl (fun m b => min m (f b)) a ∈ l.map f := by
  induction l generalizing a with
  | nil => exact Or.inl rfl
  | cons c l ih =>
    rw [List.foldl_cons, List.map_cons]
    rcases ih (min a (f c)) with h | h
    · rcases min_choice a (f c) with h2 | h2
      · exact Or.inl (h.trans h2)
      · exact Or.inr (List.mem_cons.2 (Or.inl (h.trans h2)))
    · exact Or.inr (List.mem_cons_of_mem _ h)

theorem init_le_foldl_max {β : Type} (f : β → α) (l : List β) (a : α) :
    a ≤ l.foldl (fun m b => max m (f b)) a := by
  induction l generalizing a with
  | nil => exact le_refl a
  | cons b l ih => exact (le_max_left _ _).trans (ih _)

theorem mem_le_foldl_max {β : Type} (f : β → α) (l : List β) (a : α) :
    ∀ b ∈ l, f b ≤ l.foldl (fun m b => max m (f b)) a := by
  induction l generalizing a with
  | nil => intro b hb; cases hb
  | cons c l ih =>
    intro b hb
    rcases List.mem_cons.1 hb with rfl | hb
    · exact (le_max_right _ _).trans (init_le_foldl_max f l _)
    · exact ih _ b hb

theorem foldl_max_mem {β : Type} (f : β → α) (l : List β) (a : α) :
    l.foldl (fun m b => max m (f b)) a = a ∨ l.foldl (fun m b => max m (f b)) a ∈ l.map f := by
  induction l generalizing a with
  | nil => exact Or.inl rfl
  | cons c l ih =>
    rw [List.foldl_cons, List.map_cons]
    rcases ih (max a (f c)) with h | h
    · rcases max_choice a (f c) with h2 | h2
      · exact Or.inl (h.trans h2)
      · exact Or.inr (List.mem_cons.2 (Or.inl (h.trans h2)))
    · exact Or.inr (List.mem_cons_of_mem _ h)

/-- A fold of `min` that starts above some listed value ends at the minimum of the list. -/
theorem foldl_min_eq_minimum {β : Type} (f : β → α) (l : List β) (a : α)
    (h : ∃ b ∈ l, f b ≤ a) :
    (l.map f).minimum = ↑(l.foldl (fun m b => min m (f b)) a) := by
  rw [List.minimum_eq_coe_iff]
  constructor
  · rcases foldl_min_mem f l a with h1 | h1
    · obtain ⟨b, hb, hba⟩ := h
      have h2 : l.foldl (fun m b => min m (f b)) a = f b :=
        le_antisymm (foldl_min_le_mem f l a b hb) (hba.trans h1.ge)
      rw [h2]
      exact List.mem_map_of_mem f hb
    · exact h1
  · intro c hc
    obtain ⟨b, hb, rfl⟩ := List.mem_map.1 hc
    exact foldl_min_le_mem f l a b hb

/-- A fold of `max` that starts below some listed value ends at the maximum of the list. -/
theorem foldl_max_eq_maximum {β : Type} (f : β → α) (l : List β) (a : α)
    (h : ∃ b ∈ l, a ≤ f b) :
    (l.map f).maximum = ↑(l.foldl (fun m b => max m (f b)) a) := by
  rw [List.maximum_eq_coe_iff]
  constructor
  · rcases foldl_max_mem f l a with h1 | h1
    · obtain ⟨b, hb, hba⟩ := h
      have h2 : l.foldl (fun m b => max m (f b)) a = f b :=
        le_antisymm (h1.le.trans hba) (mem_le_foldl_max f l a b hb)
      rw [h2]
      exact List.mem_map_of_mem f hb
    · exact h1
  · intro c hc
    obtain ⟨b, hb, rfl⟩ := List.mem_map.1 hc
    exact mem_le_foldl_max f l a b hb

/-- A fold of `min` ends at the minimum of the list exactly when it starts above some
listed value. -/
theorem foldl_min_eq_minimum_iff {β : Type} (f : β → α) (l : List β) (a : α) :
    (l.map f).minimum = ↑(l.foldl (fun m b => min m (f b)) a) ↔ ∃ b ∈ l, f b ≤ a := by
  constructor
  · intro h
    obtain ⟨hmem, -⟩ := List.minimum_eq_coe_iff.1 h
    obtain ⟨b, hb, hfb⟩ := List.mem_map.1 hmem
    exact ⟨b, hb, hfb.le.trans (foldl_min_le_init f l a)⟩
  · exact foldl_min_eq_minimum f l a

/-- A fold of `max` ends at the maximum of the list exactly when it starts below some
listed value. -/
theorem foldl_max_eq_maximum_iff {β : Type} (f : β → α) (l : List β) (a : α) :
    (l.map f).maximum = ↑(l.foldl (fun m b => max m (f b)) a) ↔ ∃ b ∈ l, a ≤ f b := by
  constructor
  · intro h
    obtain ⟨hmem, -⟩ := List.maximum_eq_coe_iff.1 h
    obtain ⟨b, hb, hfb⟩ := List.mem_map.1 hmem
    exact ⟨b, hb, (init_le_foldl_max f l a).trans hfb.ge⟩
  · exact foldl_max_eq_maximum f l a

/-- Over ordered scalars `createFromVertices(v0, v1, v2)` is the point box of `v0` expanded
with the point box of `v1` and then with the point box of `v2`, and it is the same box for
every order of the three vertices. -/
theorem createFromVertices_merge_ordered (v0 v1 v2 : Vector3 α) :
    AABB.createFromVertices v0 v1 v2 = AABB.mergeOfVertices v0 v1 v2 ∧
    (AABB.createFromVertices v0 v1 v2 = AABB.createFromVertices v0 v2 v1 ∧
     AABB.createFromVertices v0 v1 v2 = AABB.createFromVertices v1 v0 v2 ∧
     AABB.createFromVertices v0 v1 v2 = AABB.createFromVertices v1 v2 v0 ∧
     AABB.createFromVertices v0 v1 v2 = AABB.createFromVertices v2 v0 v1 ∧
     AABB.createFromVertices v0 v1 v2 = AABB.createFromVertices v2 v1 v0) := by
  refine ⟨?_, ?_, ?_, ?_, ?_, ?_⟩
  · rw [createFromVertices_eq, AABB.mergeOfVertices, expand_eq, expand_eq]
    simp only [AABB.createFromMinMax, min_assoc, max_assoc]
  · simp only [createFromVertices_eq, min_comm v1.x, min_comm v1.y, min_comm v1.z,
      max_comm v1.x, max_comm v1.y, max_comm v1.z]
  · simp only [createFromVertices_eq, min_left_comm v0.x, min_left_comm v0.y,
      min_left_comm v0.z, max_left_comm v0.x, max_left_comm v0.y, max_left_comm v0.z]
  · simp only [createFromVertices_eq, ← min_assoc, ← max_assoc, min_comm _ v0.x,
      min_comm _ v0.y, min_comm _ v0.z, max_comm _ v0.x, max_comm _ v0.y, max_comm _ v0.z]
  · simp only [createFromVertices_eq, ← min_assoc, ← max_assoc, min_comm _ v2.x,
      min_comm _ v2.y, min_comm _ v2.z, max_comm _ v2.x, max_comm _ v2.y, max_comm _ v2.z]
  · ext <;> simp only [createFromVertices_eq] <;> ac_rfl

end OrderLemmas

section FloatCompareLemmas

variable {R : Rounding}

theorem flt_ord_lt_iff : ∀ a b : F32, (Flt.ord a : Flt R) < Flt.ord b ↔ a < b :=
  fun _ _ => Iff.rfl

/-- Mapping the ordered values into the floats keeps well-formedness. -/
theorem wellFormed_map_ord (A : AABB F32) :
    (A.map (Flt.ord : F32 → Flt R)).wellFormed ↔ A.wellFormed := Iff.rfl

/-- A box without NaN holds ordered values. -/
theorem AABB.exists_ord_box (A : AABB (Flt R)) (h : A.noNaN) :
    ∃ A' : AABB F32, A = A'.map Flt.ord := by
  obtain ⟨m, hm⟩ := A.min.exists_ord_vector h.1
  obtain ⟨M, hM⟩ := A.max.exists_ord_vector h.2
  exact ⟨⟨m, M⟩, AABB.ext hm hM⟩

/-- A well-formed box of floats has no NaN. -/
theorem noNaN_of_wellFormed (A : AABB (Flt R)) (h : A.wellFormed) : A.noNaN := by
  obtain ⟨⟨a, b, c⟩, ⟨d, e, f⟩⟩ := A
  obtain ⟨h1, h2, h3⟩ := h
  cases a <;> cases b <;> cases c <;> cases d <;> cases e <;> cases f <;>
    simp [AABB.noNaN, Vector3.noNaN] at h1 h2 h3 ⊢

/-- The conditional assignment `if (b < a) a = b;` never raises an ordered `a`. -/
theorem flt_lower_le (a : F32) (b : Flt R) :
    (if b < Flt.ord a then b else Flt.ord a) ≤ Flt.ord a := by
  cases b with
  | nan => simp
  | ord b =>
    by_cases h : b < a
    · simp [h, h.le]
    · simp [h]

/-- The conditional assignment `if (b > a) a = b;` never lowers an ordered `a`. -/
theorem flt_le_raise (a : F32) (b : Flt R) :
    Flt.ord a ≤ (if b > Flt.ord a then b else Flt.ord a) := by
  cases b with
  | nan => simp
  | ord b =>
    by_cases h : a < b
    · simp [h, h.le]
    · simp [h]

/-- The two orders of two conditional assignments `if (other < a) a = other;` agree when
the middle operand is not NaN. -/
theorem flt_lower_assoc (a c : Flt R) (b : F32) :
    (if c < (if Flt.ord b < a then Flt.ord b else a) then c
      else (if Flt.ord b < a then Flt.ord b else a)) =
    (if (if c < Flt.ord b then c else Flt.ord b) < a then (if c < Flt.ord b then c else Flt.ord b)
      else a) := by
  cases a with
  | nan => simp
  | ord a =>
    cases c with
    | nan => simp
    | ord c =>
      simp only [Flt.flt_ord_lt_ord, ← apply_ite (Flt.ord : F32 → Flt R), lower_eq_min,
        min_comm c b, min_assoc]

/-- The two orders of two conditional assignments `if (other > a) a = other;` agree when
the middle operand is not NaN. -/
theorem flt_raise_assoc (a c : Flt R) (b : F32) :
    (if c > (if Flt.ord b > a then Flt.ord b else a) then c
      else (if Flt.ord b > a then Flt.ord b else a)) =
    (if (if c > Flt.ord b then c else Flt.ord b) > a then (if c > Flt.ord b then c else Flt.ord b)
      else a) := by
  cases a with
  | nan => simp
  | ord a =>
    cases c with
    | nan => simp
    | ord c =>
      simp only [gt_iff_lt, Flt.flt_ord_lt_ord, ← apply_ite (Flt.ord : F32 → Flt R),
        raise_eq_max, max_comm c b, max_assoc]

/-- A float is not below itself. -/
theorem flt_ne_of_lt {x y : Flt R} (h : x < y) : x ≠ y := by
  rintro rfl
  cases x with
  | nan => simp at h
  | ord v => exact lt_irrefl v h

/-- The two orders of two conditional assignments `if (other < a) a = other;` agree
except when the middle operand is NaN and the last one is below `a`. -/
theorem flt_lower_assoc_iff (a b c : Flt R) :
    ((if c < (if b < a then b else a) then c else (if b < a then b else a)) =
      (if (if c < b then c else b) < a then (if c < b then c else b) else a)) ↔
    ¬ (b = Flt.nan ∧ c < a) := by
  cases b with
  | ord b => simpa using flt_lower_assoc a c b
  | nan =>
    by_cases h : c < a
    · simpa [h] using flt_ne_of_lt h
    · simp [h]

/-- The two orders of two conditional assignments `if (other > a) a = other;` agree
except when the middle operand is NaN and the last one is above `a`. -/
theorem flt_raise_assoc_iff (a b c : Flt R) :
    ((if c > (if b > a then b else a) then c else (if b > a then b else a)) =
      (if (if c > b then c else b) > a then (if c > b then c else b) else a)) ↔
    ¬ (b = Flt.nan ∧ c > a) := by
  cases b with
  | ord b => simpa using flt_raise_assoc a c b
  | nan =>
    by_cases h : a < c
    · simpa [h] using (flt_ne_of_lt h).symm
    · simp [h]

end FloatCompareLemmas

section FloatArithmeticLemmas

variable {R : Rounding}

@[simp]
theorem f32_zero_le_finite (q : ℚ) (hq) : F32.zero ≤ F32.finite q hq ↔ 0 ≤ q := Iff.rfl
@[simp]
theorem f32_zero_le_negInf : F32.zero ≤ F32.negInf ↔ False := Iff.rfl

/-- A non-negative rational is rounded to a non-negative float. -/
theorem rnd_nonneg (q : ℚ) (hq : 0 ≤ q) : F32.zero ≤ R.rnd q := by
  have h := R.mono 0 q hq
  rwa [R.rnd_zero] at h

/-- Half of a finite non-negative float is a finite non-negative float. -/
theorem rnd_half (q : ℚ) (hq : 0 ≤ q) (hr : q ≤ FLT_MAX_Q) :
    ∃ r hr, R.rnd (q / 2) = F32.finite r hr ∧ 0 ≤ r := by
  have h0 := rnd_nonneg (R := R) (q / 2) (by linarith)
  have h1 := R.rnd_inRange (q / 2) (by linarith) (by linarith)
  cases h : R.rnd (q / 2) with
  | negInf => exact absurd h h1.1
  | posInf => exact absurd h h1.2
  | finite r hr =>
    rw [h] at h0
    exact ⟨r, hr, rfl, h0⟩

/-- On one axis: with a non-negative extent, a center that is not NaN, and not both of them
infinite, `center - extent / 2 <= center + extent / 2` in float arithmetic. -/
theorem flt_centerExtent_axis (c e : Flt R) (he : 0 ≤ e) (hc : c ≠ Flt.nan)
    (hinf : ¬ (c.isInfinite ∧ e.isInfinite)) : c - e / 2 ≤ c + e / 2 := by
  rw [Flt.flt_two_eq]
  rw [Flt.flt_zero_eq] at he
  cases e with
  | nan => simp at he
  | ord e =>
    cases c with
    | nan => exact absurd rfl hc
    | ord c =>
      cases e with
      | negInf => simp at he
      | posInf =>
        cases c with
        | negInf => simp [Flt.isInfinite] at hinf
        | posInf => simp [Flt.isInfinite] at hinf
        | finite p hp => simp [Flt.divOrd, Flt.addOrd, F32.two]
      | finite q hq =>
        have hq0 : 0 ≤ q := he
        obtain ⟨r, hr, hrq, hr0⟩ := rnd_half (R := R) q hq0 hq.2
        have h2 : (2 : ℚ) ≠ 0 := by norm_num
        cases c with
        | negInf => simp [Flt.divOrd, Flt.addOrd, F32.two, h2, hrq]
        | posInf => simp [Flt.divOrd, Flt.addOrd, F32.two, h2, hrq]
        | finite p hp =>
          simp only [Flt.flt_ord_div_ord, Flt.divOrd, F32.two, h2, if_false, hrq,
            Flt.flt_ord_sub_ord, Flt.flt_ord_add_ord, F32.f32_neg_finite, Flt.addOrd,
            Flt.flt_ord_le_ord]
          exact R.mono _ _ (by linarith)

/-- The difference `M - m` of ordered floats with `m <= M` is NaN or non-negative. -/
theorem subOrd_nonneg (m M e : F32) (h : m ≤ M) (he : Flt.addOrd (R := R) M (-m) = Flt.ord e) :
    F32.zero ≤ e := by
  cases m <;> cases M <;> simp [Flt.addOrd] at h he ⊢
  all_goals first
    | exact rnd_nonneg _ (by linarith)
    | (subst he; exact rnd_nonneg _ (by linarith))
    | (subst he; simp [F32.zero])

/-- The difference `M - m` of ordered floats grows when `M` grows and `m` shrinks. -/
theorem subOrd_mono (m M m' M' e e' : F32) (hM : M ≤ M') (hm : m' ≤ m)
    (he : Flt.addOrd (R := R) M (-m) = Flt.ord e)
    (he' : Flt.addOrd (R := R) M' (-m') = Flt.ord e') : e ≤ e' := by
  cases m <;> cases M <;> cases m' <;> cases M' <;>
    simp [Flt.addOrd] at hM hm he he' ⊢
  all_goals first
    | exact R.mono _ _ (by linarith)
    | (subst he; subst he'; exact R.mono _ _ (by linarith))
    | (subst he; subst he'; simp)

/-- The sum of two non-negative ordered floats is non-negative. -/
theorem addOrd_nonneg (a b s : F32) (ha : F32.zero ≤ a) (hb : F32.zero ≤ b)
    (h : Flt.addOrd (R := R) a b = Flt.ord s) : F32.zero ≤ s := by
  cases a <;> cases b <;> simp [Flt.addOrd] at ha hb h ⊢
  all_goals first
    | exact rnd_nonneg _ (by linarith)
    | (subst h; exact rnd_nonneg _ (by linarith))
    | (subst h; simp [F32.zero])

/-- The sum of two non-negative ordered floats grows with both. -/
theorem addOrd_mono (a a' b b' s s' : F32) (ha : F32.zero ≤ a) (haa : a ≤ a')
    (hb : F32.zero ≤ b) (hbb : b ≤ b') (h : Flt.addOrd (R := R) a b = Flt.ord s)
    (h' : Flt.addOrd (R := R) a' b' = Flt.ord s') : s ≤ s' := by
  cases a <;> cases a' <;> cases b <;> cases b' <;>
    simp [Flt.addOrd] at ha haa hb hbb h h' ⊢
  all_goals first
    | exact R.mono _ _ (by linarith)
    | (subst h; subst h'; exact R.mono _ _ (by linarith))
    | (subst h; subst h'; simp)

/-- The product of two non-negative ordered floats is NaN or non-negative. -/
theorem mulOrd_nonneg (a b p : F32) (ha : F32.zero ≤ a) (hb : F32.zero ≤ b)
    (h : Flt.mulOrd (R := R) a b = Flt.ord p) : F32.zero ≤ p := by
  cases a <;> cases b <;> simp [Flt.mulOrd] at ha hb h ⊢
  all_goals first
    | exact rnd_nonneg _ (mul_nonneg ha hb)
    | (subst h; exact rnd_nonneg _ (mul_nonneg ha hb))
    | (subst h; simp [F32.zero])
    | (split_ifs at h <;> first
        | (exfalso; rename_i h1 h2; exact h2 (lt_of_le_of_ne (by linarith) (Ne.symm h1)))
        | (cases h; simp [F32.zero]))

/-- The product of two non-negative ordered floats grows with both, as long as neither
product is NaN. -/
theorem mulOrd_mono (a a' b b' p p' : F32) (ha : F32.zero ≤ a) (haa : a ≤ a')
    (hb : F32.zero ≤ b) (hbb : b ≤ b') (h : Flt.mulOrd (R := R) a b = Flt.ord p)
    (h' : Flt.mulOrd (R := R) a' b' = Flt.ord p') : p ≤ p' := by
  cases a <;> cases a' <;> cases b <;> cases b' <;>
    simp [Flt.mulOrd] at ha haa hb hbb h h' ⊢
  all_goals first
    | exact R.mono _ _ (mul_le_mul haa hbb hb (ha.trans haa))
    | (subst h; subst h'; exact R.mono _ _ (mul_le_mul haa hbb hb (ha.trans haa)))
    | (subst h; subst h'; simp)
    | (split_ifs at h h' <;> first
        | (exfalso; rename_i h1 h2; exact h2 (lt_of_le_of_ne (by linarith) (Ne.symm h1)))
        | (exfalso; rename_i h1 h2 _ _; exact h2 (lt_of_le_of_ne (by linarith) (Ne.symm h1)))
        | (cases h; cases h'; simp))

/-- A sum of floats that is not NaN is the sum of two ordered floats. -/
theorem flt_add_eq_ord (x y : Flt R) (s : F32) (h : x + y = Flt.ord s) :
    ∃ a b, x = Flt.ord a ∧ y = Flt.ord b ∧ Flt.addOrd (R := R) a b = Flt.ord s := by
  cases x <;> cases y <;> simp at h
  exact ⟨_, _, rfl, rfl, h⟩

/-- A product of floats that is not NaN is the product of two ordered floats. -/
theorem flt_mul_eq_ord (x y : Flt R) (p : F32) (h : x * y = Flt.ord p) :
    ∃ a b, x = Flt.ord a ∧ y = Flt.ord b ∧ Flt.mulOrd (R := R) a b = Flt.ord p := by
  cases x <;> cases y <;> simp at h
  exact ⟨_, _, rfl, rfl, h⟩

/-- A float below an ordered float is an ordered float. -/
theorem flt_le_ord (x : Flt R) (a : F32) (h : x ≤ Flt.ord a) : ∃ v, x = Flt.ord v ∧ v ≤ a := by
  cases x with
  | nan => simp at h
  | ord v => exact ⟨v, rfl, h⟩

/-- A float above an ordered float is an ordered float. -/
theorem flt_ord_le (x : Flt R) (a : F32) (h : Flt.ord a ≤ x) : ∃ v, x = Flt.ord v ∧ a ≤ v := by
  cases x with
  | nan => simp at h
  | ord v => exact ⟨v, rfl, h⟩

theorem f32_zero_le_two : F32.zero ≤ F32.two := by
  simp [F32.zero, F32.two]

/-- The area formula `2 * (ex*ey + ez*ey + ex*ez)` of the source is non-negative on
non-negative extents, when it is not NaN. -/
theorem flt_area_nonneg (ex ey ez : Flt R) (s : F32)
    (hx : ∀ a, ex = Flt.ord a → F32.zero ≤ a) (hy : ∀ a, ey = Flt.ord a → F32.zero ≤ a)
    (hz : ∀ a, ez = Flt.ord a → F32.zero ≤ a)
    (h : 2 * (ex * ey + ez * ey + ex * ez) = Flt.ord s) : F32.zero ≤ s := by
  rw [Flt.flt_two_eq] at h
  obtain ⟨t2, t, h2, hX, hs⟩ := flt_mul_eq_ord _ _ _ h
  cases h2
  obtain ⟨u, p3, hu, hp3, ht⟩ := flt_add_eq_ord _ _ _ hX
  obtain ⟨p1, p2, hp1, hp2, hu'⟩ := flt_add_eq_ord _ _ _ hu
  obtain ⟨a, b, rfl, rfl, hab⟩ := flt_mul_eq_ord _ _ _ hp1
  obtain ⟨c, b2, rfl, hb2, hcb⟩ := flt_mul_eq_ord _ _ _ hp2
  cases hb2
  obtain ⟨a2, c2, ha2, hc2, hac⟩ := flt_mul_eq_ord _ _ _ hp3
  cases ha2
  cases hc2
  have na := hx a rfl
  have nb := hy b rfl
  have nc := hz c rfl
  have n1 := mulOrd_nonneg a b p1 na nb hab
  have n2 := mulOrd_nonneg c b p2 nc nb hcb
  have n3 := mulOrd_nonneg a c p3 na nc hac
  have nu := addOrd_nonneg p1 p2 u n1 n2 hu'
  have nt := addOrd_nonneg u p3 t nu n3 ht
  exact mulOrd_nonneg F32.two t s f32_zero_le_two nt hs

/-- The area formula `2 * (ex*ey + ez*ey + ex*ez)` of the source grows with non-negative
extents, when neither area is NaN. -/
theorem flt_area_mono (ex ey ez ex' ey' ez' : Flt R) (s s' : F32)
    (hx : ∀ a a', ex = Flt.ord a → ex' = Flt.ord a' → F32.zero ≤ a ∧ a ≤ a')
    (hy : ∀ a a', ey = Flt.ord a → ey' = Flt.ord a' → F32.zero ≤ a ∧ a ≤ a')
    (hz : ∀ a a', ez = Flt.ord a → ez' = Flt.ord a' → F32.zero ≤ a ∧ a ≤ a')
    (h : 2 * (ex * ey + ez * ey + ex * ez) = Flt.ord s)
    (h' : 2 * (ex' * ey' + ez' * ey' + ex' * ez') = Flt.ord s') : s ≤ s' := by
  rw [Flt.flt_two_eq] at h h'
  obtain ⟨t2, t, h2, hX, hs⟩ := flt_mul_eq_ord _ _ _ h
  cases h2
  obtain ⟨u, p3, hu, hp3, ht⟩ := flt_add_eq_ord _ _ _ hX
  obtain ⟨p1, p2, hp1, hp2, hu'⟩ := flt_add_eq_ord _ _ _ hu
  obtain ⟨a, b, rfl, rfl, hab⟩ := flt_mul_eq_ord _ _ _ hp1
  obtain ⟨c, b2, rfl, hb2, hcb⟩ := flt_mul_eq_ord _ _ _ hp2
  cases hb2
  obtain ⟨a2, c2, ha2, hc2, hac⟩ := flt_mul_eq_ord _ _ _ hp3
  cases ha2
  cases hc2
  obtain ⟨t2', t', h2', hX', hs'⟩ := flt_mul_eq_ord _ _ _ h'
  cases h2'
  obtain ⟨v, q3, hv, hq3, ht'⟩ := flt_add_eq_ord _ _ _ hX'
  obtain ⟨q1, q2, hq1, hq2, hv'⟩ := flt_add_eq_ord _ _ _ hv
  obtain ⟨a', b', rfl, rfl, hab'⟩ := flt_mul_eq_ord _ _ _ hq1
  obtain ⟨c', b2', rfl, hb2', hcb'⟩ := flt_mul_eq_ord _ _ _ hq2
  cases hb2'
  obtain ⟨a2', c2', ha2', hc2', hac'⟩ := flt_mul_eq_ord _ _ _ hq3
  cases ha2'
  cases hc2'
  obtain ⟨na, la⟩ := hx a a' rfl rfl
  obtain ⟨nb, lb⟩ := hy b b' rfl rfl
  obtain ⟨nc, lc⟩ := hz c c' rfl rfl
  have n1 := mulOrd_nonneg a b p1 na nb hab
  have n2 := mulOrd_nonneg c b p2 nc nb hcb
  have n3 := mulOrd_nonneg a c p3 na nc hac
  have l1 := mulOrd_mono a a' b b' p1 q1 na la nb lb hab hab'
  have l2 := mulOrd_mono c c' b b' p2 q2 nc lc nb lb hcb hcb'
  have l3 := mulOrd_mono a a' c c' p3 q3 na la nc lc hac hac'
  have nu := addOrd_nonneg p1 p2 u n1 n2 hu'
  have lu := addOrd_mono p1 q1 p2 q2 u v n1 l1 n2 l2 hu' hv'
  have nt := addOrd_nonneg u p3 t nu n3 ht
  have lt := addOrd_mono u v p3 q3 t t' nu lu n3 l3 ht ht'
  exact mulOrd_mono F32.two F32.two t t' s s' f32_zero_le_two (le_refl _) nt lt hs hs'

/-- Expanding a box of ordered floats with any box of floats gives a box of ordered
floats that encloses the receiver. -/
theorem expand_ord_receiver (A : AABB F32) (B : AABB (Flt R)) :
    ∃ E : AABB F32, (A.map Flt.ord).expand B = E.map Flt.ord ∧
      E.min.allLe A.min ∧ A.max.allLe E.max := by
  obtain ⟨mx, hmx, lmx⟩ := flt_le_ord _ _ (flt_lower_le A.min.x B.min.x)
  obtain ⟨my, hmy, lmy⟩ := flt_le_ord _ _ (flt_lower_le A.min.y B.min.y)
  obtain ⟨mz, hmz, lmz⟩ := flt_le_ord _ _ (flt_lower_le A.min.z B.min.z)
  obtain ⟨Mx, hMx, lMx⟩ := flt_ord_le _ _ (flt_le_raise A.max.x B.max.x)
  obtain ⟨My, hMy, lMy⟩ := flt_ord_le _ _ (flt_le_raise A.max.y B.max.y)
  obtain ⟨Mz, hMz, lMz⟩ := flt_ord_le _ _ (flt_le_raise A.max.z B.max.z)
  refine ⟨⟨⟨mx, my, mz⟩, ⟨Mx, My, Mz⟩⟩, ?_, ⟨lmx, lmy, lmz⟩, ⟨lMx, lMy, lMz⟩⟩
  rw [expand_components]
  simp only [AABB.map, Vector3.map]
  rw [hmx, hmy, hmz, hMx, hMy, hMz]

/-- The surface area of a well-formed box of ordered floats is non-negative when it is
not NaN. -/
theorem getSurfaceArea_ord_nonneg (A : AABB F32) (hA : A.wellFormed) (s : F32)
    (h : (A.map (Flt.ord : F32 → Flt R)).getSurfaceArea = Flt.ord s) : F32.zero ≤ s := by
  obtain ⟨hx, hy, hz⟩ := hA
  simp only [AABB.getSurfaceArea, AABB.getExtent, AABB.map, Vector3.map, Vector3.sub_x,
    Vector3.sub_y, Vector3.sub_z, Flt.flt_ord_sub_ord] at h
  exact flt_area_nonneg _ _ _ s (fun a ha => subOrd_nonneg _ _ a hx ha)
    (fun a ha => subOrd_nonneg _ _ a hy ha) (fun a ha => subOrd_nonneg _ _ a hz ha) h

/-- The surface area of a well-formed box of ordered floats is at most that of a box of
ordered floats that encloses it, when neither area is NaN. -/
theorem getSurfaceArea_ord_mono (A E : AABB F32) (hA : A.wellFormed)
    (hmin : E.min.allLe A.min) (hmax : A.max.allLe E.max) (s s' : F32)
    (h : (A.map (Flt.ord : F32 → Flt R)).getSurfaceArea = Flt.ord s)
    (h' : (E.map (Flt.ord : F32 → Flt R)).getSurfaceArea = Flt.ord s') : s ≤ s' := by
  obtain ⟨hx, hy, hz⟩ := hA
  obtain ⟨mx, my, mz⟩ := hmin
  obtain ⟨Mx, My, Mz⟩ := hmax
  simp only [AABB.getSurfaceArea, AABB.getExtent, AABB.map, Vector3.map, Vector3.sub_x,
    Vector3.sub_y, Vector3.sub_z, Flt.flt_ord_sub_ord] at h h'
  exact flt_area_mono _ _ _ _ _ _ s s'
    (fun a a' ha ha' => ⟨subOrd_nonneg _ _ a hx ha, subOrd_mono _ _ _ _ a a' Mx mx ha ha'⟩)
    (fun a a' ha ha' => ⟨subOrd_nonneg _ _ a hy ha, subOrd_mono _ _ _ _ a a' My my ha ha'⟩)
    (fun a a' ha ha' => ⟨subOrd_nonneg _ _ a hz ha, subOrd_mono _ _ _ _ a a' Mz mz ha ha'⟩)
    h h'

/-- With a non-negative extent, a center without NaN, and no axis on which both are
infinite, `createFromCenterExtent` puts `min` below `max` on every axis, in float
arithmetic. -/
theorem flt_centerExtent_wellFormed (center extent : Vector3 (Flt R))
    (hext : 0 ≤ extent.x ∧ 0 ≤ extent.y ∧ 0 ≤ extent.z) (hcen : center.noNaN)
    (hinf : ¬ (center.x.isInfinite ∧ extent.x.isInfinite) ∧
      ¬ (center.y.isInfinite ∧ extent.y.isInfinite) ∧
      ¬ (center.z.isInfinite ∧ extent.z.isInfinite)) :
    (AABB.createFromCenterExtent center extent).wellFormed :=
  ⟨flt_centerExtent_axis _ _ hext.1 hcen.1 hinf.1,
    flt_centerExtent_axis _ _ hext.2.1 hcen.2.1 hinf.2.1,
    flt_centerExtent_axis _ _ hext.2.2 hcen.2.2 hinf.2.2⟩

end FloatArithmeticLemmas

/-! ## Properties of the specification -/

section Claims

variable {α : Type} [LinearOrder α]

/-- C1. After `A.expand(B)` each component of `A.min` is the minimum of the old `A.min`
component and the `B.min` component on that axis, and each component of `A.max` is the
maximum of the old `A.max` component and the `B.max` component on that axis. -/
theorem expand_min_max (A B : AABB α) :
    (A.expand B).min.x = min A.min.x B.min.x ∧
    (A.expand B).min.y = min A.min.y B.min.y ∧
    (A.expand B).min.z = min A.min.z B.min.z ∧
    (A.expand B).max.x = max A.max.x B.max.x ∧
    (A.expand B).max.y = max A.max.y B.max.y ∧
    (A.expand B).max.z = max A.max.z B.max.z := by
  rw [expand_eq]
  exact ⟨rfl, rfl, rfl, rfl, rfl, rfl⟩

/-- C2, as stated, fails when a corner of `B` is infinite: `B` with both corners at
`(+∞, +∞, +∞)` is well-formed, and expanding the default-constructed box with it leaves
`min` at `(FLT_MAX, FLT_MAX, FLT_MAX)`, because `+∞ < FLT_MAX` is false. -/
theorem expand_new_left_counterexample :
    boxAtPosInf.wellFormed ∧
    ((AABB.new : AABB F32).expand boxAtPosInf).min = ⟨FLT_MAX, FLT_MAX, FLT_MAX⟩ ∧
    ¬ (((AABB.new : AABB F32).expand boxAtPosInf).min = boxAtPosInf.min ∧
       ((AABB.new : AABB F32).expand boxAtPosInf).max = boxAtPosInf.max) := by
  simp [expand_eq, boxAtPosInf, AABB.new, AABB.createFromMinMax, AABB.wellFormed, FLT_MAX,
    HasFltMax.FLT_MAX]

/-- C2, amended. For every well-formed box `B` of floats with no `min` component equal to
`+∞` and no `max` component equal to `-∞` (so for every well-formed box of finite
floats), expanding a default-constructed box with `B` yields a box whose `min` and `max`
are `B.min` and `B.max`. -/
theorem expand_new_left (B : AABB F32) (_hwf : B.wellFormed)
    (hB : B.noInfiniteBound) :
    ((AABB.new : AABB F32).expand B).min = B.min ∧
    ((AABB.new : AABB F32).expand B).max = B.max := by
  simp only [AABB.noInfiniteBound, ← F32.f32_le_FLT_MAX_iff,
    ← F32.f32_neg_FLT_MAX_le_iff] at hB
  obtain ⟨⟨h1, h2, h3⟩, h4, h5, h6⟩ := hB
  rw [expand_eq]
  simp [AABB.new, min_eq_right h1, min_eq_right h2, min_eq_right h3, max_eq_right h4,
    max_eq_right h5, max_eq_right h6]

/-- C2, amended, at the box `[1, 2] x [1, 2] x [1, 2]`. -/
theorem expand_new_left_witness :
    ((AABB.new : AABB F32).expand boxOneTwo).min = boxOneTwo.min ∧
    ((AABB.new : AABB F32).expand boxOneTwo).max = boxOneTwo.max :=
  expand_new_left boxOneTwo
    (by simp [boxOneTwo, AABB.wellFormed, AABB.createFromMinMax])
    (by simp [boxOneTwo, AABB.noInfiniteBound, AABB.createFromMinMax])

/-- C3, as stated, fails when a corner of `B` is infinite: `B` with both corners at
`(+∞, +∞, +∞)` is well-formed, and expanding it with the default-constructed box lowers
`B.min` to `(FLT_MAX, FLT_MAX, FLT_MAX)`, because `FLT_MAX < +∞`; likewise `B` with both
corners at `(-∞, -∞, -∞)` has its `max` raised to `(-FLT_MAX, -FLT_MAX, -FLT_MAX)`. -/
theorem expand_new_right_counterexample :
    (boxAtPosInf.wellFormed ∧
      (boxAtPosInf.expand AABB.new).min = ⟨FLT_MAX, FLT_MAX, FLT_MAX⟩ ∧
      ¬ ((boxAtPosInf.expand AABB.new).min = boxAtPosInf.min ∧
         (boxAtPosInf.expand AABB.new).max = boxAtPosInf.max)) ∧
    (boxAtNegInf.wellFormed ∧
      (boxAtNegInf.expand AABB.new).max = ⟨-FLT_MAX, -FLT_MAX, -FLT_MAX⟩ ∧
      ¬ ((boxAtNegInf.expand AABB.new).min = boxAtNegInf.min ∧
         (boxAtNegInf.expand AABB.new).max = boxAtNegInf.max)) := by
  constructor
  · simp [expand_eq, boxAtPosInf, AABB.new, AABB.createFromMinMax, AABB.wellFormed, FLT_MAX,
      HasFltMax.FLT_MAX]
  · simp [expand_eq, boxAtNegInf, AABB.new, AABB.createFromMinMax, AABB.wellFormed, FLT_MAX,
      HasFltMax.FLT_MAX]

/-- C3, amended. For every well-formed box `B` of floats with no `min` component equal to
`+∞` and no `max` component equal to `-∞` (so for every well-formed box of finite
floats), `B.expand(E)` with `E` default-constructed leaves `B.min` and `B.max` unchanged. -/
theorem expand_new_right (B : AABB F32) (_hwf : B.wellFormed)
    (hB : B.noInfiniteBound) :
    (B.expand AABB.new).min = B.min ∧ (B.expand AABB.new).max = B.max := by
  simp only [AABB.noInfiniteBound, ← F32.f32_le_FLT_MAX_iff,
    ← F32.f32_neg_FLT_MAX_le_iff] at hB
  obtain ⟨⟨h1, h2, h3⟩, h4, h5, h6⟩ := hB
  rw [expand_eq]
  simp [AABB.new, min_eq_left h1, min_eq_left h2, min_eq_left h3, max_eq_left h4,
    max_eq_left h5, max_eq_left h6]

/-- C3, amended, at the box `[1, 2] x [1, 2] x [1, 2]`. -/
theorem expand_new_right_witness :
    (boxOneTwo.expand AABB.new).min = boxOneTwo.min ∧
    (boxOneTwo.expand AABB.new).max = boxOneTwo.max :=
  expand_new_right boxOneTwo
    (by simp [boxOneTwo, AABB.wellFormed, AABB.createFromMinMax])
    (by simp [boxOneTwo, AABB.noInfiniteBound, AABB.createFromMinMax])

/-- C4. Expanding a copy of `A` with `B` gives the same `min` and the same `max` as
expanding a copy of `B` with `A`; this holds for all boxes, well-formed or not. -/
theorem expand_comm (A B : AABB α) :
    (A.expand B).min = (B.expand A).min ∧ (A.expand B).max = (B.expand A).max := by
  rw [expand_eq A B, expand_eq B A]
  simp only [min_comm, max_comm, and_self]

/-- C6. `createFromVertices(v0, v1, v2)` is the tightest box containing the three points:
on each axis `min` is the minimum of the three coordinates and `max` their maximum, every
vertex lies inside the box, and each of the six bounds is attained by a vertex. -/
theorem createFromVertices_tight (v0 v1 v2 : Vector3 α) :
    ((AABB.createFromVertices v0 v1 v2).min.x = min v0.x (min v1.x v2.x) ∧
     (AABB.createFromVertices v0 v1 v2).min.y = min v0.y (min v1.y v2.y) ∧
     (AABB.createFromVertices v0 v1 v2).min.z = min v0.z (min v1.z v2.z) ∧
     (AABB.createFromVertices v0 v1 v2).max.x = max v0.x (max v1.x v2.x) ∧
     (AABB.createFromVertices v0 v1 v2).max.y = max v0.y (max v1.y v2.y) ∧
     (AABB.createFromVertices v0 v1 v2).max.z = max v0.z (max v1.z v2.z)) ∧
    ((AABB.createFromVertices v0 v1 v2).containsPoint v0 ∧
     (AABB.createFromVertices v0 v1 v2).containsPoint v1 ∧
     (AABB.createFromVertices v0 v1 v2).containsPoint v2) ∧
    (((AABB.createFromVertices v0 v1 v2).min.x = v0.x ∨
        (AABB.createFromVertices v0 v1 v2).min.x = v1.x ∨
        (AABB.createFromVertices v0 v1 v2).min.x = v2.x) ∧
     ((AABB.createFromVertices v0 v1 v2).min.y = v0.y ∨
        (AABB.createFromVertices v0 v1 v2).min.y = v1.y ∨
        (AABB.createFromVertices v0 v1 v2).min.y = v2.y) ∧
     ((AABB.createFromVertices v0 v1 v2).min.z = v0.z ∨
        (AABB.createFromVertices v0 v1 v2).min.z = v1.z ∨
        (AABB.createFromVertices v0 v1 v2).min.z = v2.z) ∧
     ((AABB.createFromVertices v0 v1 v2).max.x = v0.x ∨
        (AABB.createFromVertices v0 v1 v2).max.x = v1.x ∨
        (AABB.createFromVertices v0 v1 v2).max.x = v2.x) ∧
     ((AABB.createFromVertices v0 v1 v2).max.y = v0.y ∨
        (AABB.createFromVertices v0 v1 v2).max.y = v1.y ∨
        (AABB.createFromVertices v0 v1 v2).max.y = v2.y) ∧
     ((AABB.createFromVertices v0 v1 v2).max.z = v0.z ∨
        (AABB.createFromVertices v0 v1 v2).max.z = v1.z ∨
        (AABB.createFromVertices v0 v1 v2).max.z = v2.z)) := by
  rw [createFromVertices_eq]
  refine ⟨⟨rfl, rfl, rfl, rfl, rfl, rfl⟩, ⟨?_, ?_, ?_⟩,
    ⟨min3_mem _ _ _, min3_mem _ _ _, min3_mem _ _ _, max3_mem _ _ _, max3_mem _ _ _,
      max3_mem _ _ _⟩⟩
  · simp [AABB.containsPoint, Vector3.allLe]
  · simp [AABB.containsPoint, Vector3.allLe]
  · simp [AABB.containsPoint, Vector3.allLe]

/-- C7. The result `R` of `A.expand(B)` is the smallest box containing both: `R.min <= A.min`,
`R.min <= B.min`, `R.max >= A.max`, `R.max >= B.max` on every axis, and every box `C` with
`C.min <= A.min`, `C.min <= B.min`, `C.max >= A.max`, `C.max >= B.max` on every axis has
`C.min <= R.min` and `C.max >= R.max` on every axis. -/
theorem expand_least (A B : AABB α) :
    ((A.expand B).min.allLe A.min ∧ (A.expand B).min.allLe B.min ∧
      A.max.allLe (A.expand B).max ∧ B.max.allLe (A.expand B).max) ∧
    ∀ C : AABB α, C.min.allLe A.min → C.min.allLe B.min → A.max.allLe C.max →
      B.max.allLe C.max → C.min.allLe (A.expand B).min ∧ (A.expand B).max.allLe C.max := by
  rw [expand_eq]
  refine ⟨by simp [Vector3.allLe], ?_⟩
  rintro C ⟨h1, h2, h3⟩ ⟨h4, h5, h6⟩ ⟨k1, k2, k3⟩ ⟨k4, k5, k6⟩
  exact ⟨⟨le_min h1 h4, le_min h2 h5, le_min h3 h6⟩, ⟨max_le k1 k4, max_le k2 k5, max_le k3 k6⟩⟩

/-- C7 at `A = [0, 1]^3`, `B = [2, 3]^3` and the enclosing box `C = [-1, 5]^3`. -/
theorem expand_least_witness :
    (AABB.createFromMinMax (⟨-1, -1, -1⟩ : Vector3 ℚ) ⟨5, 5, 5⟩).min.allLe
      (unitBox.expand farBox).min ∧
    (unitBox.expand farBox).max.allLe
      (AABB.createFromMinMax (⟨-1, -1, -1⟩ : Vector3 ℚ) ⟨5, 5, 5⟩).max :=
  (expand_least unitBox farBox).2 (AABB.createFromMinMax ⟨-1, -1, -1⟩ ⟨5, 5, 5⟩)
    (by norm_num [unitBox, farBox, AABB.createFromMinMax, Vector3.allLe])
    (by norm_num [unitBox, farBox, AABB.createFromMinMax, Vector3.allLe])
    (by norm_num [unitBox, farBox, AABB.createFromMinMax, Vector3.allLe])
    (by norm_num [unitBox, farBox, AABB.createFromMinMax, Vector3.allLe])

/-- C8, as stated, fails when a corner of a listed box is infinite: the one-box list of
the well-formed box with both corners at `(+∞, +∞, +∞)` is accumulated to a box whose `min`
is `(FLT_MAX, FLT_MAX, FLT_MAX)`, which is not the minimum `+∞` of the listed `min`s. -/
theorem expandAll_bounds_counterexample :
    (∀ b ∈ [boxAtPosInf], b.wellFormed) ∧
    (AABB.expandAll [boxAtPosInf]).min = ⟨FLT_MAX, FLT_MAX, FLT_MAX⟩ ∧
    ([boxAtPosInf].map fun b => b.min.x).minimum ≠
      ((AABB.expandAll [boxAtPosInf]).min.x : WithTop F32) := by
  have h : (AABB.expandAll [boxAtPosInf]).min = ⟨FLT_MAX, FLT_MAX, FLT_MAX⟩ := by
    simp [AABB.expandAll, expand_eq, boxAtPosInf, AABB.new, AABB.createFromMinMax]
  refine ⟨?_, h, ?_⟩
  · simp [boxAtPosInf, AABB.wellFormed, AABB.createFromMinMax]
  · rw [h]
    simp [boxAtPosInf, AABB.createFromMinMax, FLT_MAX, HasFltMax.FLT_MAX]

/-- C8, amended. For every list of well-formed boxes of floats, starting from a
default-constructed box and expanding it by each box of the list in turn yields a box that
contains every listed box; on each axis its `min` is the minimum of the listed boxes' `min`
exactly when some listed box has a `min` other than `+∞` on that axis, and its `max` is the
maximum of the listed boxes' `max` exactly when some listed box has a `max` other than `-∞`
on that axis (so both hold for every non-empty list of boxes of finite floats). -/
theorem expandAll_bounds (boxes : List (AABB F32)) (_hwf : ∀ b ∈ boxes, b.wellFormed) :
    (∀ b ∈ boxes, (AABB.expandAll boxes).min.allLe b.min ∧
      b.max.allLe (AABB.expandAll boxes).max) ∧
    (((boxes.map fun b => b.min.x).minimum = ((AABB.expandAll boxes).min.x : WithTop F32) ↔
        ∃ b ∈ boxes, b.min.x ≠ F32.posInf) ∧
     ((boxes.map fun b => b.min.y).minimum = ((AABB.expandAll boxes).min.y : WithTop F32) ↔
        ∃ b ∈ boxes, b.min.y ≠ F32.posInf) ∧
     ((boxes.map fun b => b.min.z).minimum = ((AABB.expandAll boxes).min.z : WithTop F32) ↔
        ∃ b ∈ boxes, b.min.z ≠ F32.posInf)) ∧
    (((boxes.map fun b => b.max.x).maximum = ((AABB.expandAll boxes).max.x : WithBot F32) ↔
        ∃ b ∈ boxes, b.max.x ≠ F32.negInf) ∧
     ((boxes.map fun b => b.max.y).maximum = ((AABB.expandAll boxes).max.y : WithBot F32) ↔
        ∃ b ∈ boxes, b.max.y ≠ F32.negInf) ∧
     ((boxes.map fun b => b.max.z).maximum = ((AABB.expandAll boxes).max.z : WithBot F32) ↔
        ∃ b ∈ boxes, b.max.z ≠ F32.negInf)) := by
  rw [AABB.expandAll, foldl_expand_eq]
  simp only [← F32.f32_le_FLT_MAX_iff, ← F32.f32_neg_FLT_MAX_le_iff]
  refine ⟨?_, ⟨?_, ?_, ?_⟩, ?_, ?_, ?_⟩
  · intro b hb
    exact ⟨⟨foldl_min_le_mem (fun c : AABB F32 => c.min.x) _ _ b hb,
        foldl_min_le_mem (fun c : AABB F32 => c.min.y) _ _ b hb,
        foldl_min_le_mem (fun c : AABB F32 => c.min.z) _ _ b hb⟩,
      ⟨mem_le_foldl_max (fun c : AABB F32 => c.max.x) _ _ b hb,
        mem_le_foldl_max (fun c : AABB F32 => c.max.y) _ _ b hb,
        mem_le_foldl_max (fun c : AABB F32 => c.max.z) _ _ b hb⟩⟩
  · exact foldl_min_eq_minimum_iff (fun c : AABB F32 => c.min.x) _ _
  · exact foldl_min_eq_minimum_iff (fun c : AABB F32 => c.min.y) _ _
  · exact foldl_min_eq_minimum_iff (fun c : AABB F32 => c.min.z) _ _
  · exact foldl_max_eq_maximum_iff (fun c : AABB F32 => c.max.x) _ _
  · exact foldl_max_eq_maximum_iff (fun c : AABB F32 => c.max.y) _ _
  · exact foldl_max_eq_maximum_iff (fun c : AABB F32 => c.max.z) _ _

/-- C8, amended, at the list of `[+∞, +∞]^3` and `[1, 2]^3`: the accumulated box contains
`[+∞, +∞]^3`, and its `min.x` is the minimum of the two listed `min.x`. -/
theorem expandAll_bounds_witness :
    ((AABB.expandAll [boxAtPosInf, boxOneTwo]).min.allLe boxAtPosInf.min ∧
      boxAtPosInf.max.allLe (AABB.expandAll [boxAtPosInf, boxOneTwo]).max) ∧
    ([boxAtPosInf, boxOneTwo].map fun b => b.min.x).minimum =
      ((AABB.expandAll [boxAtPosInf, boxOneTwo]).min.x : WithTop F32) :=
  ⟨(expandAll_bounds [boxAtPosInf, boxOneTwo]
      (by simp [boxAtPosInf, boxOneTwo, AABB.wellFormed, AABB.createFromMinMax])).1
      boxAtPosInf (by simp),
    (expandAll_bounds [boxAtPosInf, boxOneTwo]
      (by simp [boxAtPosInf, boxOneTwo, AABB.wellFormed, AABB.createFromMinMax])).2.1.1.2
      ⟨boxOneTwo, by simp, by simp [boxOneTwo, AABB.createFromMinMax]⟩⟩

/-- C9, as stated, fails in float arithmetic: with the center and the non-negative extent
both `(+∞, +∞, +∞)`, `min` is `∞ - ∞ = NaN` on every axis, and with the center
`(NaN, NaN, NaN)` and the extent `(0, 0, 0)` `min` is NaN too; `NaN <= max` is false. -/
theorem createFromCenterExtent_wellFormed_counterexample :
    ((Flt.ord F32.zero ≤ pointPosInf.x ∧ Flt.ord F32.zero ≤ pointPosInf.y ∧
        Flt.ord F32.zero ≤ pointPosInf.z) ∧
      (AABB.createFromCenterExtent pointPosInf pointPosInf).min = pointNaN ∧
      ¬ ((AABB.createFromCenterExtent pointPosInf pointPosInf).min.x ≤
        (AABB.createFromCenterExtent pointPosInf pointPosInf).max.x)) ∧
    ((Flt.ord F32.zero ≤ pointZero.x ∧ Flt.ord F32.zero ≤ pointZero.y ∧
        Flt.ord F32.zero ≤ pointZero.z) ∧
      (AABB.createFromCenterExtent pointNaN pointZero).min = pointNaN ∧
      ¬ ((AABB.createFromCenterExtent pointNaN pointZero).min.x ≤
        (AABB.createFromCenterExtent pointNaN pointZero).max.x)) := by
  have h1 : (AABB.createFromCenterExtent pointPosInf pointPosInf).min = pointNaN := by
    simp only [AABB.createFromCenterExtent]
    rw [Flt.flt_two_eq]
    ext <;> norm_num [pointPosInf, pointNaN, Flt.divOrd, Flt.addOrd, F32.two]
  have h2 : (AABB.createFromCenterExtent pointNaN pointZero).min = pointNaN := by
    simp only [AABB.createFromCenterExtent]
    ext <;> simp [pointNaN]
  refine ⟨⟨?_, h1, ?_⟩, ?_, h2, ?_⟩
  · simp [pointPosInf, F32.zero]
  · rw [h1]
    simp [pointNaN]
  · simp [pointZero]
  · rw [h2]
    simp [pointNaN]

/-- C9, amended. In float arithmetic, for every center with no NaN component and every
extent whose three components are all non-negative, such that on no axis both the center
and the extent are infinite, `createFromCenterExtent(center, extent)` has `min <= max` on
every axis. -/
theorem createFromCenterExtent_wellFormed {R : Rounding} (center extent : Vector3 (Flt R))
    (hext : 0 ≤ extent.x ∧ 0 ≤ extent.y ∧ 0 ≤ extent.z) (hcen : center.noNaN)
    (hinf : ¬ (center.x.isInfinite ∧ extent.x.isInfinite) ∧
      ¬ (center.y.isInfinite ∧ extent.y.isInfinite) ∧
      ¬ (center.z.isInfinite ∧ extent.z.isInfinite)) :
    (AABB.createFromCenterExtent center extent).min.x ≤
      (AABB.createFromCenterExtent center extent).max.x ∧
    (AABB.createFromCenterExtent center extent).min.y ≤
      (AABB.createFromCenterExtent center extent).max.y ∧
    (AABB.createFromCenterExtent center extent).min.z ≤
      (AABB.createFromCenterExtent center extent).max.z :=
  flt_centerExtent_wellFormed center extent hext hcen hinf

/-- C9, amended, at the center `(+∞, +∞, +∞)` and the extent `(2, 2, 2)`. -/
theorem createFromCenterExtent_wellFormed_witness :
    (AABB.createFromCenterExtent pointPosInf pointTwo).min.x ≤
      (AABB.createFromCenterExtent pointPosInf pointTwo).max.x ∧
    (AABB.createFromCenterExtent pointPosInf pointTwo).min.y ≤
      (AABB.createFromCenterExtent pointPosInf pointTwo).max.y ∧
    (AABB.createFromCenterExtent pointPosInf pointTwo).min.z ≤
      (AABB.createFromCenterExtent pointPosInf pointTwo).max.z :=
  createFromCenterExtent_wellFormed pointPosInf pointTwo
    (by simp [pointTwo, Flt.flt_zero_eq, F32.zero, F32.two])
    (by simp [pointPosInf, Vector3.noNaN])
    (by simp [pointPosInf, pointTwo, Flt.isInfinite, F32.two])

/-- C10. In exact arithmetic, `getCenter() - getExtent()/2` is `min` and
`getCenter() + getExtent()/2` is `max`, on every component; this holds for every box,
well-formed or not. -/
theorem center_extent_consistent (b : AABB ℚ) :
    b.getCenter - b.getExtent / (2 : ℚ) = b.min ∧
    b.getCenter + b.getExtent / (2 : ℚ) = b.max := by
  constructor
  · ext <;> simp [AABB.getCenter, AABB.getExtent] <;> ring
  · ext <;> simp [AABB.getCenter, AABB.getExtent] <;> ring

/-- C11. For every box, with `(ex, ey, ez) = max - min`, `getSurfaceArea()` is
`2 * (ex*ey + ez*ey + ex*ez)`; for `min = (0,0,0)`, `max = (2,3,4)` it is 52. -/
theorem getSurfaceArea_eq (b : AABB ℚ) :
    b.getSurfaceArea =
      2 * ((b.max.x - b.min.x) * (b.max.y - b.min.y) +
           (b.max.z - b.min.z) * (b.max.y - b.min.y) +
           (b.max.x - b.min.x) * (b.max.z - b.min.z)) ∧
    (AABB.createFromMinMax (⟨0, 0, 0⟩ : Vector3 ℚ) ⟨2, 3, 4⟩).getSurfaceArea = 52 := by
  constructor
  · simp only [AABB.getSurfaceArea, AABB.getExtent, Vector3.sub_x, Vector3.sub_y, Vector3.sub_z]
  · norm_num [AABB.getSurfaceArea, AABB.getExtent, AABB.createFromMinMax]

/-- C12. The default-constructed box has `min = (FLT_MAX, FLT_MAX, FLT_MAX)` and
`max = (-FLT_MAX, -FLT_MAX, -FLT_MAX)`; `FLT_MAX` is a finite float, the value
`(2^24 - 1) * 2^104`, and every finite float is at most `FLT_MAX`; `min > max` strictly on
every component. -/
theorem new_sentinel :
    ((AABB.new : AABB F32).min = ⟨FLT_MAX, FLT_MAX, FLT_MAX⟩ ∧
     (AABB.new : AABB F32).max = ⟨-FLT_MAX, -FLT_MAX, -FLT_MAX⟩) ∧
    ((FLT_MAX : F32) ≠ F32.posInf ∧ (FLT_MAX : F32) ≠ F32.negInf ∧
     (FLT_MAX : ℚ) = 340282346638528859811704183484516925440 ∧
     ∀ a : F32, a ≠ F32.posInf → a ≤ FLT_MAX) ∧
    ((AABB.new : AABB F32).max.x < (AABB.new : AABB F32).min.x ∧
     (AABB.new : AABB F32).max.y < (AABB.new : AABB F32).min.y ∧
     (AABB.new : AABB F32).max.z < (AABB.new : AABB F32).min.z) := by
  refine ⟨⟨rfl, rfl⟩, ⟨?_, ?_, ?_, ?_⟩, ?_⟩
  · simp [FLT_MAX, HasFltMax.FLT_MAX]
  · simp [FLT_MAX, HasFltMax.FLT_MAX]
  · norm_num [FLT_MAX, HasFltMax.FLT_MAX, FLT_MAX_Q]
  · intro a ha
    exact (F32.f32_le_FLT_MAX_iff a).2 ha
  · simp [AABB.new, FLT_MAX, HasFltMax.FLT_MAX]
    norm_num [FLT_MAX_Q]

/-- C12 at the finite float 1: it is at most `FLT_MAX`. -/
theorem new_sentinel_witness :
    F32.finite 1 (by norm_num [FLT_MAX_Q]) ≤ (FLT_MAX : F32) :=
  new_sentinel.2.1.2.2.2 (F32.finite 1 (by norm_num [FLT_MAX_Q])) (by simp)

/-- C13. `createFromCenterExtent(center, extent)` has `min = center - extent/2` and
`max = center + extent/2` on each component; `createFromCenterExtent((1,1,1), (2,2,2))` has
`min = (0,0,0)` and `max = (2,2,2)`. -/
theorem createFromCenterExtent_eq (center extent : Vector3 ℚ) :
    ((AABB.createFromCenterExtent center extent).min.x = center.x - extent.x / 2 ∧
     (AABB.createFromCenterExtent center extent).min.y = center.y - extent.y / 2 ∧
     (AABB.createFromCenterExtent center extent).min.z = center.z - extent.z / 2 ∧
     (AABB.createFromCenterExtent center extent).max.x = center.x + extent.x / 2 ∧
     (AABB.createFromCenterExtent center extent).max.y = center.y + extent.y / 2 ∧
     (AABB.createFromCenterExtent center extent).max.z = center.z + extent.z / 2) ∧
    ((AABB.createFromCenterExtent (⟨1, 1, 1⟩ : Vector3 ℚ) ⟨2, 2, 2⟩).min = ⟨0, 0, 0⟩ ∧
     (AABB.createFromCenterExtent (⟨1, 1, 1⟩ : Vector3 ℚ) ⟨2, 2, 2⟩).max = ⟨2, 2, 2⟩) := by
  refine ⟨⟨rfl, rfl, rfl, rfl, rfl, rfl⟩, ?_, ?_⟩
  · ext <;> norm_num [AABB.createFromCenterExtent]
  · ext <;> norm_num [AABB.createFromCenterExtent]

/-- C14. With `A = createFromMinMax((0,0,0), (1,1,1))` and
`B = createFromMinMax((2,2,2), (3,3,3))`, after `A.expand(B)` the box `A` has
`min = (0,0,0)`, `max = (3,3,3)`, `getExtent() = (3,3,3)` and `getSurfaceArea() = 54`. -/
theorem expand_scenario :
    ((AABB.createFromMinMax (⟨0, 0, 0⟩ : Vector3 ℚ) ⟨1, 1, 1⟩).expand
        (AABB.createFromMinMax ⟨2, 2, 2⟩ ⟨3, 3, 3⟩)).min = ⟨0, 0, 0⟩ ∧
    ((AABB.createFromMinMax (⟨0, 0, 0⟩ : Vector3 ℚ) ⟨1, 1, 1⟩).expand
        (AABB.createFromMinMax ⟨2, 2, 2⟩ ⟨3, 3, 3⟩)).max = ⟨3, 3, 3⟩ ∧
    ((AABB.createFromMinMax (⟨0, 0, 0⟩ : Vector3 ℚ) ⟨1, 1, 1⟩).expand
        (AABB.createFromMinMax ⟨2, 2, 2⟩ ⟨3, 3, 3⟩)).getExtent = ⟨3, 3, 3⟩ ∧
    ((AABB.createFromMinMax (⟨0, 0, 0⟩ : Vector3 ℚ) ⟨1, 1, 1⟩).expand
        (AABB.createFromMinMax ⟨2, 2, 2⟩ ⟨3, 3, 3⟩)).getSurfaceArea = 54 := by
  have h : (AABB.createFromMinMax (⟨0, 0, 0⟩ : Vector3 ℚ) ⟨1, 1, 1⟩).expand
      (AABB.createFromMinMax ⟨2, 2, 2⟩ ⟨3, 3, 3⟩) = ⟨⟨0, 0, 0⟩, ⟨3, 3, 3⟩⟩ := by
    rw [expand_components]
    norm_num [AABB.createFromMinMax]
  rw [h]
  refine ⟨rfl, rfl, ?_, ?_⟩
  · ext <;> norm_num [AABB.getExtent]
  · norm_num [AABB.getSurfaceArea, AABB.getExtent]

/-- C15, as stated, fails on the default-constructed box: `FLT_MAX` and `-FLT_MAX` cancel,
so `getCenter()` is `(0, 0, 0)` there, and no component has a positive absolute value. -/
theorem getCenter_new_counterexample :
    (AABB.new : AABB ℚ).getCenter = ⟨0, 0, 0⟩ ∧
    ¬ (0 < |(AABB.new : AABB ℚ).getCenter.x| ∨ 0 < |(AABB.new : AABB ℚ).getCenter.y| ∨
       0 < |(AABB.new : AABB ℚ).getCenter.z|) := by
  have h : (AABB.new : AABB ℚ).getCenter = ⟨0, 0, 0⟩ := by
    ext <;> simp [AABB.getCenter, AABB.new]
  rw [h]
  simp

/-- C15, amended. `getCenter()` returns the componentwise midpoint `(min + max) * 0.5`, and
on the default-constructed box it returns `(0, 0, 0)`. -/
theorem getCenter_eq (b : AABB ℚ) :
    (b.getCenter.x = (b.min.x + b.max.x) * 0.5 ∧
     b.getCenter.y = (b.min.y + b.max.y) * 0.5 ∧
     b.getCenter.z = (b.min.z + b.max.z) * 0.5) ∧
    (AABB.new : AABB ℚ).getCenter = ⟨0, 0, 0⟩ := by
  refine ⟨⟨rfl, rfl, rfl⟩, ?_⟩
  ext <;> simp [AABB.getCenter, AABB.new]

/-- C16. `getExtent()` returns `max - min` componentwise, and on the default-constructed
box every component is `-2 * FLT_MAX` in exact arithmetic: negative, and of magnitude above
`FLT_MAX`, because `max < min` there. -/
theorem getExtent_eq (b : AABB ℚ) :
    (b.getExtent.x = b.max.x - b.min.x ∧
     b.getExtent.y = b.max.y - b.min.y ∧
     b.getExtent.z = b.max.z - b.min.z) ∧
    (AABB.new : AABB ℚ).getExtent = ⟨-2 * FLT_MAX, -2 * FLT_MAX, -2 * FLT_MAX⟩ ∧
    (-2 * (FLT_MAX : ℚ) < 0 ∧ (FLT_MAX : ℚ) < |-2 * (FLT_MAX : ℚ)|) ∧
    ((AABB.new : AABB ℚ).max.x < (AABB.new : AABB ℚ).min.x ∧
     (AABB.new : AABB ℚ).max.y < (AABB.new : AABB ℚ).min.y ∧
     (AABB.new : AABB ℚ).max.z < (AABB.new : AABB ℚ).min.z) := by
  refine ⟨⟨rfl, rfl, rfl⟩, ?_, ?_, ?_⟩
  · ext <;> simp [AABB.getExtent, AABB.new] <;> ring
  · norm_num [FLT_MAX, HasFltMax.FLT_MAX, FLT_MAX_Q]
  · norm_num [AABB.new, FLT_MAX, HasFltMax.FLT_MAX, FLT_MAX_Q]

/-- C17, as stated, fails when an extent overflows: the well-formed box of finite floats
with `min = (-FLT_MAX, 0, 0)` and `max = (FLT_MAX, 0, 0)` has the extent `(+∞, 0, 0)` and
the surface area `∞ * 0 = NaN`, which is not `>= 0`; and the point box at `(0, 0, 0)`,
whose area is `0`, expanded with that box has the area NaN, which is not `>= 0` either. -/
theorem getSurfaceArea_expand_mono_counterexample :
    (boxWide.wellFormed ∧ boxWide.getExtent.x = Flt.ord F32.posInf ∧
      boxWide.getSurfaceArea = Flt.nan ∧ ¬ (0 ≤ boxWide.getSurfaceArea)) ∧
    (boxAtZero.wellFormed ∧ boxAtZero.getSurfaceArea = Flt.ord F32.zero ∧
      (boxAtZero.expand boxWide).getSurfaceArea = Flt.nan ∧
      ¬ (boxAtZero.getSurfaceArea ≤ (boxAtZero.expand boxWide).getSurfaceArea)) := by
  have e : boxAtZero.expand boxWide = boxWide := by
    rw [expand_components]
    norm_num [boxAtZero, boxWide, pointZero, AABB.createFromMinMax, F32.zero, FLT_MAX,
      HasFltMax.FLT_MAX, FLT_MAX_Q]
  have h1 : boxWide.getSurfaceArea = Flt.nan := by
    norm_num [boxWide, AABB.getSurfaceArea, AABB.getExtent, AABB.createFromMinMax,
      Flt.flt_two_eq, Flt.addOrd, Flt.mulOrd, F32.zero, F32.two, FLT_MAX, HasFltMax.FLT_MAX,
      Rounding.saturating, FLT_MAX_Q]
  have h2 : boxAtZero.getSurfaceArea = Flt.ord F32.zero := by
    simp only [AABB.getSurfaceArea]
    rw [Flt.flt_two_eq]
    norm_num [boxAtZero, pointZero, AABB.getExtent,
      AABB.createFromMinMax, Flt.flt_two_eq, Flt.addOrd, Flt.mulOrd, F32.zero, F32.two,
      Rounding.saturating, FLT_MAX_Q]
  refine ⟨⟨?_, ?_, h1, ?_⟩, ?_, h2, ?_, ?_⟩
  · norm_num [boxWide, AABB.wellFormed, AABB.createFromMinMax, F32.zero, FLT_MAX,
      HasFltMax.FLT_MAX, FLT_MAX_Q]
  · norm_num [boxWide, AABB.getExtent, AABB.createFromMinMax, Flt.addOrd, FLT_MAX,
      HasFltMax.FLT_MAX, Rounding.saturating, FLT_MAX_Q]
  · rw [h1]
    simp
  · simp [boxAtZero, pointZero, AABB.wellFormed, AABB.createFromMinMax]
  · rw [e, h1]
  · rw [e, h1]
    simp

/-- C17, amended. For every well-formed box `A` and every box `B` of floats, whenever
neither surface area is NaN, `getSurfaceArea()` of `A` after `A.expand(B)` is at least
`getSurfaceArea()` of `A` before; and the surface area of a well-formed box is non-negative
whenever it is not NaN. (In float arithmetic an area is NaN when an infinite extent meets
a zero extent, or when an extent is `∞ - ∞`.) -/
theorem getSurfaceArea_expand_mono {R : Rounding} (A B : AABB (Flt R)) (hA : A.wellFormed) :
    (A.getSurfaceArea ≠ Flt.nan → (A.expand B).getSurfaceArea ≠ Flt.nan →
      A.getSurfaceArea ≤ (A.expand B).getSurfaceArea) ∧
    (A.getSurfaceArea ≠ Flt.nan → 0 ≤ A.getSurfaceArea) := by
  obtain ⟨A', rfl⟩ := A.exists_ord_box (noNaN_of_wellFormed A hA)
  have hA' : A'.wellFormed := (wellFormed_map_ord A').1 hA
  obtain ⟨E, hE, hmin, hmax⟩ := expand_ord_receiver A' B
  rw [hE]
  constructor
  · intro h h'
    obtain ⟨s, hs⟩ := Flt.exists_ord_of_ne_nan _ h
    obtain ⟨s', hs'⟩ := Flt.exists_ord_of_ne_nan _ h'
    rw [hs, hs']
    exact getSurfaceArea_ord_mono A' E hA' hmin hmax s s' hs hs'
  · intro h
    obtain ⟨s, hs⟩ := Flt.exists_ord_of_ne_nan _ h
    rw [hs, Flt.flt_zero_eq]
    exact getSurfaceArea_ord_nonneg A' hA' s hs

/-- C17, amended, at `A` the point box at `(0, 0, 0)` and `B` the point box at
`(2, 2, 2)`. -/
theorem getSurfaceArea_expand_mono_witness :
    (boxAtZero.getSurfaceArea ≠ Flt.nan → (boxAtZero.expand boxAtTwo).getSurfaceArea ≠ Flt.nan →
      boxAtZero.getSurfaceArea ≤ (boxAtZero.expand boxAtTwo).getSurfaceArea) ∧
    (boxAtZero.getSurfaceArea ≠ Flt.nan → 0 ≤ boxAtZero.getSurfaceArea) :=
  getSurfaceArea_expand_mono boxAtZero boxAtTwo
    (by simp [boxAtZero, pointZero, AABB.wellFormed, AABB.createFromMinMax])

/-- C18, as stated, fails when `B` has a NaN component: with `A` at `(2, 2, 2)`, `B` all
NaN and `C` at `(0, 0, 0)`, expanding `A` with `B` and then with `C` lowers `min` to
`(0, 0, 0)`, while `B` expanded with `C` is still all NaN and leaves `A.min` at
`(2, 2, 2)`: a comparison with NaN is false. -/
theorem expand_assoc_counterexample :
    ((boxAtTwo.expand boxNaN).expand boxAtZero).min = pointZero ∧
    (boxAtTwo.expand (boxNaN.expand boxAtZero)).min = pointTwo ∧
    ¬ (((boxAtTwo.expand boxNaN).expand boxAtZero).min =
        (boxAtTwo.expand (boxNaN.expand boxAtZero)).min ∧
      ((boxAtTwo.expand boxNaN).expand boxAtZero).max =
        (boxAtTwo.expand (boxNaN.expand boxAtZero)).max) := by
  have h1 : ((boxAtTwo.expand boxNaN).expand boxAtZero).min = pointZero := by
    simp only [expand_components]
    norm_num [boxAtTwo, boxNaN, boxAtZero, pointZero, pointTwo, AABB.createFromMinMax,
      F32.zero, F32.two]
  have h2 : (boxAtTwo.expand (boxNaN.expand boxAtZero)).min = pointTwo := by
    simp only [expand_components]
    norm_num [boxAtTwo, boxNaN, boxAtZero, pointZero, pointTwo, AABB.createFromMinMax,
      F32.zero, F32.two]
  refine ⟨h1, h2, ?_⟩
  rw [h1, h2]
  norm_num [pointZero, pointTwo, F32.zero, F32.two]

/-- C18, amended. For all boxes `A`, `B`, `C` of floats, expanding `A` with `B` and then
with `C` gives the same `min` as expanding `A` with the box obtained by expanding `B` with
`C` exactly when there is no axis on which `B.min` is NaN and `C.min < A.min`, and the same
`max` exactly when there is no axis on which `B.max` is NaN and `C.max > A.max`; so both
are the same whenever `B` has no NaN component. -/
theorem expand_assoc {R : Rounding} (A B C : AABB (Flt R)) :
    (((A.expand B).expand C).min = (A.expand (B.expand C)).min ↔
      ¬ (B.min.x = Flt.nan ∧ C.min.x < A.min.x) ∧ ¬ (B.min.y = Flt.nan ∧ C.min.y < A.min.y) ∧
        ¬ (B.min.z = Flt.nan ∧ C.min.z < A.min.z)) ∧
    (((A.expand B).expand C).max = (A.expand (B.expand C)).max ↔
      ¬ (B.max.x = Flt.nan ∧ C.max.x > A.max.x) ∧ ¬ (B.max.y = Flt.nan ∧ C.max.y > A.max.y) ∧
        ¬ (B.max.z = Flt.nan ∧ C.max.z > A.max.z)) ∧
    (B.noNaN →
      ((A.expand B).expand C).min = (A.expand (B.expand C)).min ∧
      ((A.expand B).expand C).max = (A.expand (B.expand C)).max) := by
  have hmin : ((A.expand B).expand C).min = (A.expand (B.expand C)).min ↔
      ¬ (B.min.x = Flt.nan ∧ C.min.x < A.min.x) ∧ ¬ (B.min.y = Flt.nan ∧ C.min.y < A.min.y) ∧
        ¬ (B.min.z = Flt.nan ∧ C.min.z < A.min.z) := by
    simp only [expand_components, Vector3.ext_iff, flt_lower_assoc_iff]
  have hmax : ((A.expand B).expand C).max = (A.expand (B.expand C)).max ↔
      ¬ (B.max.x = Flt.nan ∧ C.max.x > A.max.x) ∧ ¬ (B.max.y = Flt.nan ∧ C.max.y > A.max.y) ∧
        ¬ (B.max.z = Flt.nan ∧ C.max.z > A.max.z) := by
    simp only [expand_components, Vector3.ext_iff, flt_raise_assoc_iff]
  refine ⟨hmin, hmax, fun hB => ⟨hmin.2 ?_, hmax.2 ?_⟩⟩
  · exact ⟨fun h => hB.1.1 h.1, fun h => hB.1.2.1 h.1, fun h => hB.1.2.2 h.1⟩
  · exact ⟨fun h => hB.2.1 h.1, fun h => hB.2.2.1 h.1, fun h => hB.2.2.2 h.1⟩

/-- C18, amended, at `A` all NaN, `B` at `(2, 2, 2)` and `C` at `(0, 0, 0)`. -/
theorem expand_assoc_witness :
    ((boxNaN.expand boxAtTwo).expand boxAtZero).min =
      (boxNaN.expand (boxAtTwo.expand boxAtZero)).min ∧
    ((boxNaN.expand boxAtTwo).expand boxAtZero).max =
      (boxNaN.expand (boxAtTwo.expand boxAtZero)).max :=
  (expand_assoc boxNaN boxAtTwo boxAtZero).2.2
    (by simp [boxAtTwo, pointTwo, AABB.createFromMinMax, AABB.noNaN, Vector3.noNaN])

/-- C19, as stated, fails when a vertex has a NaN coordinate: for `v0 = (NaN, NaN, NaN)`,
`v1 = (0, 0, 0)`, `v2 = (2, 2, 2)`, `createFromVertices` has `min = (0, 0, 0)` while the
chain of expands keeps the NaN of the point box of `v0`, and with the vertices in the order
`v1, v2, v0` `createFromVertices` has `min = (NaN, NaN, NaN)`. -/
theorem createFromVertices_eq_merge_counterexample :
    (AABB.createFromVertices pointNaN pointZero pointTwo).min = pointZero ∧
    (AABB.mergeOfVertices pointNaN pointZero pointTwo).min = pointNaN ∧
    (AABB.createFromVertices pointZero pointTwo pointNaN).min = pointNaN ∧
    AABB.createFromVertices pointNaN pointZero pointTwo ≠
      AABB.mergeOfVertices pointNaN pointZero pointTwo ∧
    AABB.createFromVertices pointNaN pointZero pointTwo ≠
      AABB.createFromVertices pointZero pointTwo pointNaN := by
  have h1 : (AABB.createFromVertices pointNaN pointZero pointTwo).min = pointZero := by
    norm_num [AABB.createFromVertices, AABB.createFromMinMax, MIN, pointNaN, pointZero,
      pointTwo, F32.zero, F32.two]
  have h2 : (AABB.mergeOfVertices pointNaN pointZero pointTwo).min = pointNaN := by
    simp only [AABB.mergeOfVertices, expand_components]
    norm_num [AABB.createFromMinMax, pointNaN, pointZero, pointTwo]
  have h3 : (AABB.createFromVertices pointZero pointTwo pointNaN).min = pointNaN := by
    norm_num [AABB.createFromVertices, AABB.createFromMinMax, MIN, pointNaN, pointZero,
      pointTwo]
  have h4 : pointZero ≠ pointNaN := fun h => Flt.noConfusion (congrArg Vector3.x h)
  refine ⟨h1, h2, h3, ?_, ?_⟩
  · intro h
    rw [h] at h1
    exact h4 (h1.symm.trans h2)
  · intro h
    rw [h] at h1
    exact h4 (h1.symm.trans h3)

/-- C19, amended. For all points `v0`, `v1`, `v2` of floats with no NaN coordinate,
`createFromVertices(v0, v1, v2)` is the point box of `v0` expanded with the point box of
`v1` and then with the point box of `v2`, and it is the same box for every order of the
three vertices. -/
theorem createFromVertices_eq_merge {R : Rounding} (v0 v1 v2 : Vector3 (Flt R))
    (h0 : v0.noNaN) (h1 : v1.noNaN) (h2 : v2.noNaN) :
    AABB.createFromVertices v0 v1 v2 = AABB.mergeOfVertices v0 v1 v2 ∧
    (AABB.createFromVertices v0 v1 v2 = AABB.createFromVertices v0 v2 v1 ∧
     AABB.createFromVertices v0 v1 v2 = AABB.createFromVertices v1 v0 v2 ∧
     AABB.createFromVertices v0 v1 v2 = AABB.createFromVertices v1 v2 v0 ∧
     AABB.createFromVertices v0 v1 v2 = AABB.createFromVertices v2 v0 v1 ∧
     AABB.createFromVertices v0 v1 v2 = AABB.createFromVertices v2 v1 v0) := by
  obtain ⟨w0, rfl⟩ := v0.exists_ord_vector h0
  obtain ⟨w1, rfl⟩ := v1.exists_ord_vector h1
  obtain ⟨w2, rfl⟩ := v2.exists_ord_vector h2
  obtain ⟨k, k1, k2, k3, k4, k5⟩ := createFromVertices_merge_ordered w0 w1 w2
  have hm : AABB.mergeOfVertices (w0.map (Flt.ord : F32 → Flt R)) (w1.map Flt.ord)
      (w2.map Flt.ord) = (AABB.mergeOfVertices w0 w1 w2).map Flt.ord := by
    have e : ∀ w : Vector3 F32, AABB.createFromMinMax (w.map (Flt.ord : F32 → Flt R))
        (w.map Flt.ord) = (AABB.createFromMinMax w w).map Flt.ord := fun _ => rfl
    rw [AABB.mergeOfVertices, e, e, e, expand_map _ flt_ord_lt_iff,
      expand_map _ flt_ord_lt_iff]
    rfl
  simp only [createFromVertices_map _ flt_ord_lt_iff, hm]
  exact ⟨congrArg _ k, congrArg _ k1, congrArg _ k2, congrArg _ k3, congrArg _ k4,
    congrArg _ k5⟩

/-- C19, amended, at `v0 = (0, 0, 0)`, `v1 = (2, 2, 2)`, `v2 = (0, 2, 0)`. -/
theorem createFromVertices_eq_merge_witness :
    AABB.createFromVertices pointZero pointTwo pointZeroTwoZero =
      AABB.mergeOfVertices pointZero pointTwo pointZeroTwoZero :=
  (createFromVertices_eq_merge pointZero pointTwo pointZeroTwoZero
    (by simp [pointZero, Vector3.noNaN])
    (by simp [pointTwo, Vector3.noNaN])
    (by simp [pointZeroTwoZero, Vector3.noNaN])).1

/-- C20. In exact arithmetic, for every center `c` and extent `e` the box
`createFromCenterExtent(c, e)` has `getCenter() = c` and `getExtent() = e`. -/
theorem createFromCenterExtent_inverse (c e : Vector3 ℚ) :
    (AABB.createFromCenterExtent c e).getCenter = c ∧
    (AABB.createFromCenterExtent c e).getExtent = e := by
  constructor
  · ext <;> simp [AABB.createFromCenterExtent, AABB.getCenter] <;> ring
  · ext <;> simp [AABB.createFromCenterExtent, AABB.getExtent]

end Claims

end Varjo
